import Mathlib

/-!
Verification of the shinobi-cash client SDK core against its specification:
deterministic note derivation (packages/core/src/crypto/noteDerivation.ts),
withdrawal context assembly (packages/core/src/services/WithdrawalContextService.ts),
proof-input preparation (WithdrawalProofGenerator), and the note discovery
engine (NoteDiscoveryService).

Machine integers: the TypeScript code computes with arbitrary-precision
`bigint`, so field elements and amounts are embedded as `Int` (and byte /
index values as `Nat`); reductions modulo the BN254 scalar field are
explicit.  The external hash primitives (keccak256 from viem, poseidon-lite)
are black boxes and are modelled as an abstract bundle of functions.
-/

namespace Shinobi

/-- BN254 scalar field modulus, the constant `F` of noteDerivation.ts
(equal to SNARK_SCALAR_FIELD of WithdrawalContextService.ts). -/
def p : ℤ := 21888242871839275222246405745257275088548364400416034343698204186575808495617

theorem p_pos : 0 < p := by decide

/-- Embeds the helper `modF = (x) => ((x % F) + F) % F`.  The JavaScript `%`
on bigints is a truncating remainder, but the composite expression equals the
Euclidean remainder for either remainder convention, so the Lean `%` (Euclidean
`Int.emod`) gives the identical function. -/
def modF (x : ℤ) : ℤ := ((x % p) + p) % p

theorem modF_eq_emod (x : ℤ) : modF x = x % p := by
  have h1 : (x % p + p * 1) % p = (x % p) % p := Int.add_mul_emod_self_left (x % p) p 1
  have h2 : (x % p) % p = x % p := Int.emod_emod_of_dvd x dvd_rfl
  unfold modF
  rw [show x % p + p = x % p + p * 1 by ring, h1, h2]

theorem modF_nonneg (x : ℤ) : 0 ≤ modF x := by
  rw [modF_eq_emod]; exact Int.emod_nonneg x (by decide)

theorem modF_lt (x : ℤ) : modF x < p := by
  rw [modF_eq_emod]; exact Int.emod_lt_of_pos x p_pos

theorem modF_eq_self {x : ℤ} (h0 : 0 ≤ x) (h1 : x < p) : modF x = x := by
  rw [modF_eq_emod]; exact Int.emod_eq_of_lt h0 h1

/-- Big-endian byte encoding of a nonnegative integer into `w` bytes: this is
the `encodePacked` layout for `uintN` (N/8 bytes), `address` (20 bytes) and
`bytes32` (32 bytes). -/
def beBytes (w : ℕ) (n : ℕ) : List ℕ :=
  (List.range w).map (fun i => n / 256 ^ (w - 1 - i) % 256)

/-- UTF-8 bytes of an ASCII string: the `encodePacked(["string"], [s])`
encoding (raw bytes, no length prefix).  The domain-tag strings are ASCII, so
one byte per character. -/
def utf8 (s : String) : List ℕ := s.data.map Char.toNat

/-- Hash primitives the SDK consumes as black boxes: `keccak256` (viem),
returning the 32-byte digest read as a nonnegative 256-bit integer, and the
poseidon-lite functions of arities 1, 2, 3 over the BN254 scalar field. -/
structure Primitives where
  keccak : List ℕ → ℕ
  poseidon1 : ℤ → ℤ
  poseidon2 : ℤ → ℤ → ℤ
  poseidon3 : ℤ → ℤ → ℤ → ℤ

/-- Embeds `fieldFromKeccak = (bytes) => modF(hexToBigInt(keccak256(bytes)))`. -/
def fieldFromKeccak (P : Primitives) (bytes : List ℕ) : ℤ := modF (P.keccak bytes)

/-- Embeds `contextField(poolAddress, depositIndex, changeIndex, tag)`:
keccak of the packed `(address, uint64, uint64, bytes32)` tuple, reduced into
the field.  `getAddress` (EIP-55 checksum normalization) only changes the
casing of the hexadecimal spelling, never the 20 address bytes that
`encodePacked` emits, so the address is modelled directly as its 160-bit
numeric value. -/
def contextField (P : Primitives) (poolAddress : ℕ) (depositIndex : ℕ)
    (changeIndex : ℕ) (tag : ℕ) : ℤ :=
  fieldFromKeccak P
    (beBytes 20 poolAddress ++ beBytes 8 depositIndex ++
     beBytes 8 changeIndex ++ beBytes 32 tag)

/-- Embeds `prf2 = (key, ctx, dom) => modF(poseidon2([key, modF(poseidon2([ctx, dom]))]))`. -/
def prf2 (P : Primitives) (key ctx dom : ℤ) : ℤ :=
  modF (P.poseidon2 key (modF (P.poseidon2 ctx dom)))

/-- Embeds `parseUserKey` on an argument that is already a bigint:
`if (typeof userKey === "bigint") return modF(userKey)`.  The string paths of
`parseUserKey` are modelled separately below by `parseUserKeyStr`. -/
def parseUserKeyInt (userKey : ℤ) : ℤ := modF userKey

theorem parseUserKeyInt_eq_self {k : ℤ} (h0 : 0 ≤ k) (h1 : k < p) :
    parseUserKeyInt k = k := modF_eq_self h0 h1

/-- Embeds `TAG_DEPOSIT_NULLIFIER = keccak256(encodePacked(["string"], ["shinobi.cash:DepositNullifierV1"]))`. -/
def TAG_DEPOSIT_NULLIFIER (P : Primitives) : ℕ :=
  P.keccak (utf8 "shinobi.cash:DepositNullifierV1")

/-- Embeds `TAG_DEPOSIT_SECRET`. -/
def TAG_DEPOSIT_SECRET (P : Primitives) : ℕ :=
  P.keccak (utf8 "shinobi.cash:DepositSecretV1")

/-- Embeds `TAG_CHANGE_NULLIFIER`. -/
def TAG_CHANGE_NULLIFIER (P : Primitives) : ℕ :=
  P.keccak (utf8 "shinobi.cash:ChangeNullifierV1")

/-- Embeds `TAG_CHANGE_SECRET`. -/
def TAG_CHANGE_SECRET (P : Primitives) : ℕ :=
  P.keccak (utf8 "shinobi.cash:ChangeSecretV1")

/-- Embeds `TAG_REFUND_NULLIFIER`. -/
def TAG_REFUND_NULLIFIER (P : Primitives) : ℕ :=
  P.keccak (utf8 "shinobi.cash:RefundNullifierV1")

/-- Embeds `TAG_REFUND_SECRET`. -/
def TAG_REFUND_SECRET (P : Primitives) : ℕ :=
  P.keccak (utf8 "shinobi.cash:RefundSecretV1")

/-- Embeds `DOM_DEPOSIT_NULLIFIER = fieldFromKeccak(TAG_DEPOSIT_NULLIFIER)`:
the 32-byte tag is hashed again with keccak256 and reduced into the field. -/
def DOM_DEPOSIT_NULLIFIER (P : Primitives) : ℤ :=
  fieldFromKeccak P (beBytes 32 (TAG_DEPOSIT_NULLIFIER P))

/-- Embeds `DOM_DEPOSIT_SECRET`. -/
def DOM_DEPOSIT_SECRET (P : Primitives) : ℤ :=
  fieldFromKeccak P (beBytes 32 (TAG_DEPOSIT_SECRET P))

/-- Embeds `DOM_CHANGE_NULLIFIER`. -/
def DOM_CHANGE_NULLIFIER (P : Primitives) : ℤ :=
  fieldFromKeccak P (beBytes 32 (TAG_CHANGE_NULLIFIER P))

/-- Embeds `DOM_CHANGE_SECRET`. -/
def DOM_CHANGE_SECRET (P : Primitives) : ℤ :=
  fieldFromKeccak P (beBytes 32 (TAG_CHANGE_SECRET P))

/-- Embeds `DOM_REFUND_NULLIFIER`. -/
def DOM_REFUND_NULLIFIER (P : Primitives) : ℤ :=
  fieldFromKeccak P (beBytes 32 (TAG_REFUND_NULLIFIER P))

/-- Embeds `DOM_REFUND_SECRET`. -/
def DOM_REFUND_SECRET (P : Primitives) : ℤ :=
  fieldFromKeccak P (beBytes 32 (TAG_REFUND_SECRET P))

/-- Embeds `deriveDepositNullifier(userKey, poolAddress, depositIndex)`. -/
def deriveDepositNullifier (P : Primitives) (userKey : ℤ) (poolAddress : ℕ)
    (depositIndex : ℕ) : ℤ :=
  prf2 P (parseUserKeyInt userKey)
    (contextField P poolAddress depositIndex 0 (TAG_DEPOSIT_NULLIFIER P))
    (DOM_DEPOSIT_NULLIFIER P)

/-- Embeds `deriveDepositSecret(userKey, poolAddress, depositIndex)`. -/
def deriveDepositSecret (P : Primitives) (userKey : ℤ) (poolAddress : ℕ)
    (depositIndex : ℕ) : ℤ :=
  prf2 P (parseUserKeyInt userKey)
    (contextField P poolAddress depositIndex 0 (TAG_DEPOSIT_SECRET P))
    (DOM_DEPOSIT_SECRET P)

/-- Embeds `deriveChangeNullifier(userKey, poolAddress, depositIndex, changeIndex)`. -/
def deriveChangeNullifier (P : Primitives) (userKey : ℤ) (poolAddress : ℕ)
    (depositIndex : ℕ) (changeIndex : ℕ) : ℤ :=
  prf2 P (parseUserKeyInt userKey)
    (contextField P poolAddress depositIndex changeIndex (TAG_CHANGE_NULLIFIER P))
    (DOM_CHANGE_NULLIFIER P)

/-- Embeds `deriveChangeSecret(userKey, poolAddress, depositIndex, changeIndex)`. -/
def deriveChangeSecret (P : Primitives) (userKey : ℤ) (poolAddress : ℕ)
    (depositIndex : ℕ) (changeIndex : ℕ) : ℤ :=
  prf2 P (parseUserKeyInt userKey)
    (contextField P poolAddress depositIndex changeIndex (TAG_CHANGE_SECRET P))
    (DOM_CHANGE_SECRET P)

/-- Embeds `deriveRefundNullifier(userKey, poolAddress, depositIndex, changeIndex)`. -/
def deriveRefundNullifier (P : Primitives) (userKey : ℤ) (poolAddress : ℕ)
    (depositIndex : ℕ) (changeIndex : ℕ) : ℤ :=
  prf2 P (parseUserKeyInt userKey)
    (contextField P poolAddress depositIndex changeIndex (TAG_REFUND_NULLIFIER P))
    (DOM_REFUND_NULLIFIER P)

/-- Embeds `deriveRefundSecret(userKey, poolAddress, depositIndex, changeIndex)`. -/
def deriveRefundSecret (P : Primitives) (userKey : ℤ) (poolAddress : ℕ)
    (depositIndex : ℕ) (changeIndex : ℕ) : ℤ :=
  prf2 P (parseUserKeyInt userKey)
    (contextField P poolAddress depositIndex changeIndex (TAG_REFUND_SECRET P))
    (DOM_REFUND_SECRET P)

/-- Injective encoding of integers into naturals, used by the stand-in
primitives below. -/
def zenc (z : ℤ) : ℕ := if z < 0 then 2 * (-z).toNat - 1 else 2 * z.toNat

theorem zenc_injective : Function.Injective zenc := by
  intro a b h
  unfold zenc at h
  split_ifs at h <;> omega

/-- Stand-in hash bundle used only to instantiate theorems at concrete
inputs: an injective pairing function in place of poseidon and a byte sum in
place of keccak256.  No theorem depends on these specific functions beyond
the properties proved about them where hypotheses demand it. -/
def concretePrimitives : Primitives where
  keccak bs := bs.foldl (fun a b => a + b) 7
  poseidon1 z := z + 1
  poseidon2 a b := ((Nat.pair (zenc a) (zenc b) : ℕ) : ℤ)
  poseidon3 a b c := ((Nat.pair (zenc a) (Nat.pair (zenc b) (zenc c)) : ℕ) : ℤ)

theorem concretePoseidon2_injective2 : Function.Injective2 concretePrimitives.poseidon2 := by
  intro a b a2 b2 h
  simp only [concretePrimitives, Int.natCast_inj] at h
  have h2 := Nat.pair_eq_pair.mp h
  exact ⟨zenc_injective h2.1, zenc_injective h2.2⟩

theorem concretePoseidon3_inj3 (a l : ℤ) {x y : ℤ}
    (h : concretePrimitives.poseidon3 a l x = concretePrimitives.poseidon3 a l y) : x = y := by
  simp only [concretePrimitives, Int.natCast_inj] at h
  have h2 := (Nat.pair_eq_pair.mp h).2
  exact zenc_injective (Nat.pair_eq_pair.mp h2).2

/-- C1: for every account key `k` (a field element), pool address and deposit
index, `deriveDepositNullifier(k, pool, di)` equals
`mod_p(poseidon2(k, mod_p(poseidon2(ctx, dom))))` where `ctx` is
`field_from_keccak` of the packed `(checksummed pool address, di as uint64,
0 as uint64, 32-byte tag keccak256("shinobi.cash:DepositNullifierV1"))`
encoding and `dom` is the field reduction (`field_from_keccak`) of that same
tag; and the analogous equation, with its own tag and the given changeIndex,
holds for deriveDepositSecret, deriveChangeNullifier, deriveChangeSecret,
deriveRefundNullifier and deriveRefundSecret. -/
theorem c1_derive_prf_formula (P : Primitives) (k : ℤ) (pool di ci : ℕ)
    (hk0 : 0 ≤ k) (hk1 : k < p) :
    deriveDepositNullifier P k pool di =
      modF (P.poseidon2 k (modF (P.poseidon2
        (modF (P.keccak (beBytes 20 pool ++ beBytes 8 di ++ beBytes 8 0 ++
          beBytes 32 (P.keccak (utf8 "shinobi.cash:DepositNullifierV1")))))
        (modF (P.keccak (beBytes 32 (P.keccak (utf8 "shinobi.cash:DepositNullifierV1")))))))) ∧
    deriveDepositSecret P k pool di =
      modF (P.poseidon2 k (modF (P.poseidon2
        (modF (P.keccak (beBytes 20 pool ++ beBytes 8 di ++ beBytes 8 0 ++
          beBytes 32 (P.keccak (utf8 "shinobi.cash:DepositSecretV1")))))
        (modF (P.keccak (beBytes 32 (P.keccak (utf8 "shinobi.cash:DepositSecretV1")))))))) ∧
    deriveChangeNullifier P k pool di ci =
      modF (P.poseidon2 k (modF (P.poseidon2
        (modF (P.keccak (beBytes 20 pool ++ beBytes 8 di ++ beBytes 8 ci ++
          beBytes 32 (P.keccak (utf8 "shinobi.cash:ChangeNullifierV1")))))
        (modF (P.keccak (beBytes 32 (P.keccak (utf8 "shinobi.cash:ChangeNullifierV1")))))))) ∧
    deriveChangeSecret P k pool di ci =
      modF (P.poseidon2 k (modF (P.poseidon2
        (modF (P.keccak (beBytes 20 pool ++ beBytes 8 di ++ beBytes 8 ci ++
          beBytes 32 (P.keccak (utf8 "shinobi.cash:ChangeSecretV1")))))
        (modF (P.keccak (beBytes 32 (P.keccak (utf8 "shinobi.cash:ChangeSecretV1")))))))) ∧
    deriveRefundNullifier P k pool di ci =
      modF (P.poseidon2 k (modF (P.poseidon2
        (modF (P.keccak (beBytes 20 pool ++ beBytes 8 di ++ beBytes 8 ci ++
          beBytes 32 (P.keccak (utf8 "shinobi.cash:RefundNullifierV1")))))
        (modF (P.keccak (beBytes 32 (P.keccak (utf8 "shinobi.cash:RefundNullifierV1")))))))) ∧
    deriveRefundSecret P k pool di ci =
      modF (P.poseidon2 k (modF (P.poseidon2
        (modF (P.keccak (beBytes 20 pool ++ beBytes 8 di ++ beBytes 8 ci ++
          beBytes 32 (P.keccak (utf8 "shinobi.cash:RefundSecretV1")))))
        (modF (P.keccak (beBytes 32 (P.keccak (utf8 "shinobi.cash:RefundSecretV1")))))))) := by
  have hk : parseUserKeyInt k = k := parseUserKeyInt_eq_self hk0 hk1
  refine ⟨?_, ?_, ?_, ?_, ?_, ?_⟩ <;>
    simp only [deriveDepositNullifier, deriveDepositSecret, deriveChangeNullifier,
      deriveChangeSecret, deriveRefundNullifier, deriveRefundSecret, prf2, contextField,
      fieldFromKeccak, DOM_DEPOSIT_NULLIFIER, DOM_DEPOSIT_SECRET, DOM_CHANGE_NULLIFIER,
      DOM_CHANGE_SECRET, DOM_REFUND_NULLIFIER, DOM_REFUND_SECRET, TAG_DEPOSIT_NULLIFIER,
      TAG_DEPOSIT_SECRET, TAG_CHANGE_NULLIFIER, TAG_CHANGE_SECRET, TAG_REFUND_NULLIFIER,
      TAG_REFUND_SECRET, hk]

/-- Witness for c1_derive_prf_formula: the theorem applied at the stand-in
primitives with key 5, pool address 3, deposit index 2, change index 4. -/
theorem c1_derive_prf_formula_witness :
    ((0:ℤ) ≤ 5 ∧ (5:ℤ) < p) ∧
    deriveDepositNullifier concretePrimitives 5 3 2 =
      modF (concretePrimitives.poseidon2 5 (modF (concretePrimitives.poseidon2
        (modF (concretePrimitives.keccak (beBytes 20 3 ++ beBytes 8 2 ++ beBytes 8 0 ++
          beBytes 32 (concretePrimitives.keccak (utf8 "shinobi.cash:DepositNullifierV1")))))
        (modF (concretePrimitives.keccak (beBytes 32 (concretePrimitives.keccak
          (utf8 "shinobi.cash:DepositNullifierV1")))))))) :=
  ⟨⟨by decide, by decide⟩,
   (c1_derive_prf_formula concretePrimitives 5 3 2 4 (by decide) (by decide)).1⟩

/-! Key parsing.  `parseUserKey` accepts a hex string, a decimal string or a
bigint; the string paths trim whitespace, branch on a `0x` prefix and call the
JavaScript `BigInt` constructor. -/

/-- Character for the digit `d` in bases up to 16: `0`-`9` then `a`-`f`
(lowercase, as produced by `toString(16)`). -/
def digitChar (d : ℕ) : Char := if d < 10 then Char.ofNat (48 + d) else Char.ofNat (87 + d)

/-- Value of a decimal digit character, none for anything else. -/
def decDigit? (c : Char) : Option ℕ :=
  if 48 ≤ c.toNat ∧ c.toNat ≤ 57 then some (c.toNat - 48) else none

/-- Value of a hexadecimal digit character (both cases), none for anything else. -/
def hexDigit? (c : Char) : Option ℕ :=
  if 48 ≤ c.toNat ∧ c.toNat ≤ 57 then some (c.toNat - 48)
  else if 97 ≤ c.toNat ∧ c.toNat ≤ 102 then some (c.toNat - 87)
  else if 65 ≤ c.toNat ∧ c.toNat ≤ 70 then some (c.toNat - 55)
  else none

/-- Parse a nonempty digit string in base `b`; none on an empty string or any
invalid character (the JavaScript BigInt constructor throws there). -/
def parseDigits (dig : Char → Option ℕ) (b : ℕ) (cs : List Char) : Option ℕ :=
  if cs.isEmpty then none
  else cs.foldl (fun acc c => acc.bind fun n => (dig c).map fun d => n * b + d) (some 0)

/-- Models the JavaScript `BigInt` constructor on the string shapes this code
can feed it: an optionally signed decimal literal or a `0x`/`0X` hexadecimal
literal, with the empty string parsing as 0; a parse failure (JS exception)
is `none`.  (`0o`/`0b` literals are accepted by JS as well but cannot reach
`parseUserKey`-relevant equalities and are modelled as plain digit strings
would fail; they are not exercised by any claim.) -/
def jsBigIntChars? (cs : List Char) : Option ℤ :=
  if cs = [] then some 0
  else if cs.take 2 = ['0', 'x'] ∨ cs.take 2 = ['0', 'X'] then
    (parseDigits hexDigit? 16 (cs.drop 2)).map (fun n => (n : ℤ))
  else if cs.head? = some '-' then
    (parseDigits decDigit? 10 (cs.drop 1)).map (fun n => -(n : ℤ))
  else if cs.head? = some '+' then
    (parseDigits decDigit? 10 (cs.drop 1)).map (fun n => (n : ℤ))
  else (parseDigits decDigit? 10 cs).map (fun n => (n : ℤ))

/-- ASCII whitespace trimmed by the JavaScript `trim()` call (the Unicode
space characters JS also trims do not occur in key strings). -/
def isJsWs (c : Char) : Bool :=
  c = ' ' || c = '\t' || c = '\n' || c = '\r' || c = '\x0b' || c = '\x0c'

/-- Right-trim: drop trailing whitespace. -/
def rtrimChars (cs : List Char) : List Char := (cs.reverse.dropWhile isJsWs).reverse

/-- Embeds `userKey.trim()`. -/
def trimChars (cs : List Char) : List Char := rtrimChars (cs.dropWhile isJsWs)

/-- Embeds `parseUserKey` on a string argument:
`const s = userKey.trim(); if (s.startsWith("0x")) return modF(hexToBigInt(s)); return modF(BigInt(s));`
(`hexToBigInt` is the `BigInt` constructor, so both branches parse with
`BigInt`; the branch structure is kept to mirror the source). -/
def parseUserKeyStr (s : String) : Option ℤ :=
  let t := trimChars s.data
  if t.take 2 = ['0', 'x'] then (jsBigIntChars? t).map modF
  else (jsBigIntChars? t).map modF

/-- Big-endian digit string of `n` in base `b` (the canonical representation,
`"0"` for zero). -/
def natDigitsStr (b : ℕ) (n : ℕ) : List Char :=
  if n = 0 then ['0'] else ((Nat.digits b n).reverse.map digitChar)

/-- Decimal string of `n`. -/
def decStringOf (n : ℕ) : String := ⟨natDigitsStr 10 n⟩

/-- Hex string of `n` with `0x` prefix. -/
def hexStringOf (n : ℕ) : String := ⟨'0' :: 'x' :: natDigitsStr 16 n⟩

theorem parseDigits_foldl (dig : Char → Option ℕ) (b : ℕ) (ds : List ℕ) (a : ℕ)
    (h : ∀ d ∈ ds, dig (digitChar d) = some d) :
    (ds.map digitChar).foldl (fun acc c => acc.bind fun n => (dig c).map fun d => n * b + d)
      (some a) = some (ds.foldl (fun x d => x * b + d) a) := by
  induction ds generalizing a with
  | nil => rfl
  | cons d t ih =>
    have hd : dig (digitChar d) = some d := h d (List.mem_cons_self d t)
    have ht : ∀ e ∈ t, dig (digitChar e) = some e := fun e he => h e (List.mem_cons_of_mem d he)
    simp only [List.map_cons, List.foldl_cons, Option.bind_some, hd, Option.map_some]
    exact ih (a * b + d) ht

theorem foldl_reverse_ofDigits (b : ℕ) (l : List ℕ) (a : ℕ) :
    l.reverse.foldl (fun x d => x * b + d) a = a * b ^ l.length + Nat.ofDigits b l := by
  induction l generalizing a with
  | nil => simp
  | cons d t ih =>
    simp only [List.reverse_cons, List.foldl_append, List.foldl_cons, List.foldl_nil,
      Nat.ofDigits_cons, ih a, List.length_cons]
    ring

theorem parseDigits_natDigitsStr (dig : Char → Option ℕ) (b : ℕ) (hb : 2 ≤ b)
    (compat : ∀ d < b, dig (digitChar d) = some d) (n : ℕ) :
    parseDigits dig b (natDigitsStr b n) = some n := by
  unfold natDigitsStr
  by_cases h0 : n = 0
  · subst h0
    simp only [if_pos rfl, parseDigits, List.isEmpty_cons, List.foldl_cons, List.foldl_nil]
    have : dig (digitChar 0) = some 0 := compat 0 (by omega)
    simp only [digitChar, if_pos (by omega : (0:ℕ) < 10)] at this
    simp [this]
  · rw [if_neg h0]
    have hne : Nat.digits b n ≠ [] := Nat.digits_ne_nil_iff_ne_zero.mpr h0
    have hmem : ∀ d ∈ (Nat.digits b n).reverse, dig (digitChar d) = some d := by
      intro d hd
      exact compat d (Nat.digits_lt_base hb (List.mem_reverse.mp hd))
    unfold parseDigits
    rw [if_neg (by simp [hne])]
    rw [parseDigits_foldl dig b ((Nat.digits b n).reverse) 0 hmem]
    rw [foldl_reverse_ofDigits b (Nat.digits b n) 0]
    simp [Nat.ofDigits_digits]

theorem dropWhile_eq_of_all_false {p2 : Char → Bool} {l : List Char}
    (h : ∀ c ∈ l, p2 c = false) : l.dropWhile p2 = l := by
  induction l with
  | nil => rfl
  | cons c t ih =>
    have hc : p2 c = false := h c (List.mem_cons_self c t)
    simp [List.dropWhile_cons, hc]

theorem dropWhile_ws_append {w l : List Char} (h : ∀ c ∈ w, isJsWs c = true) :
    (w ++ l).dropWhile isJsWs = l.dropWhile isJsWs := by
  induction w with
  | nil => rfl
  | cons c t ih =>
    have hc : isJsWs c = true := h c (List.mem_cons_self c t)
    simp only [List.cons_append, List.dropWhile_cons, hc, if_true]
    exact ih (fun c2 hc2 => h c2 (List.mem_cons_of_mem c hc2))

theorem dropWhile_ws_all {w : List Char} (h : ∀ c ∈ w, isJsWs c = true) :
    w.dropWhile isJsWs = [] := by
  have := dropWhile_ws_append (l := ([] : List Char)) h
  simpa using this

theorem rtrimChars_append_ws {l w : List Char} (h : ∀ c ∈ w, isJsWs c = true) :
    rtrimChars (l ++ w) = rtrimChars l := by
  unfold rtrimChars
  rw [List.reverse_append, dropWhile_ws_append (fun c hc => h c (List.mem_reverse.mp hc))]

theorem dropWhile_append_split (p2 : Char → Bool) (l l2 : List Char) :
    (l ++ l2).dropWhile p2 =
      if l.dropWhile p2 = [] then l2.dropWhile p2 else l.dropWhile p2 ++ l2 := by
  induction l with
  | nil => simp
  | cons c t ih =>
    by_cases hc : p2 c
    · simp [List.dropWhile_cons, hc, ih]
    · simp [List.dropWhile_cons, hc]

theorem trimChars_pad {s w1 w2 : List Char} (h1 : ∀ c ∈ w1, isJsWs c = true)
    (h2 : ∀ c ∈ w2, isJsWs c = true) :
    trimChars (w1 ++ s ++ w2) = trimChars s := by
  unfold trimChars
  rw [List.append_assoc, dropWhile_ws_append h1, dropWhile_append_split]
  by_cases hs : s.dropWhile isJsWs = []
  · rw [if_pos hs, hs, dropWhile_ws_all h2]
  · rw [if_neg hs, rtrimChars_append_ws h2]

theorem trimChars_of_all_false {l : List Char} (h : ∀ c ∈ l, isJsWs c = false) :
    trimChars l = l := by
  unfold trimChars rtrimChars
  rw [dropWhile_eq_of_all_false h,
      dropWhile_eq_of_all_false (fun c hc => h c (List.mem_reverse.mp hc)),
      List.reverse_reverse]

theorem natDigitsStr_shape {b x : ℕ} (hb : b ≤ 16) (hb2 : 2 ≤ b) :
    ∀ c ∈ natDigitsStr b x, ∃ d, d < 16 ∧ c = digitChar d := by
  intro c hc
  unfold natDigitsStr at hc
  by_cases h0 : x = 0
  · rw [if_pos h0] at hc
    simp only [List.mem_singleton] at hc
    exact ⟨0, by omega, by rw [hc]; rfl⟩
  · rw [if_neg h0] at hc
    obtain ⟨d, hd, rfl⟩ := List.mem_map.mp hc
    have : d < b := Nat.digits_lt_base hb2 (List.mem_reverse.mp hd)
    exact ⟨d, by omega, rfl⟩

theorem digitChar_not_ws : ∀ d, d < 16 → isJsWs (digitChar d) = false := by decide

theorem natDigitsStr_not_ws {b x : ℕ} (hb : b ≤ 16) (hb2 : 2 ≤ b) :
    ∀ c ∈ natDigitsStr b x, isJsWs c = false := by
  intro c hc
  obtain ⟨d, hd, rfl⟩ := natDigitsStr_shape hb hb2 c hc
  exact digitChar_not_ws d hd

theorem natDigitsStr_ne_nil (b x : ℕ) : natDigitsStr b x ≠ [] := by
  unfold natDigitsStr
  by_cases h0 : x = 0
  · simp [h0]
  · rw [if_neg h0]
    simp [Nat.digits_ne_nil_iff_ne_zero.mpr h0]

theorem hexDigit_digitChar : ∀ d, d < 16 → hexDigit? (digitChar d) = some d := by decide

theorem decDigit_digitChar : ∀ d, d < 10 → decDigit? (digitChar d) = some d := by decide

theorem digitChar_ne_special : ∀ d, d < 10 →
    digitChar d ≠ 'x' ∧ digitChar d ≠ 'X' ∧ digitChar d ≠ '-' ∧ digitChar d ≠ '+' := by decide

/-- C9: parseUserKey applied to the hex string of x (with 0x prefix), to the
decimal string of x, and to x as a bigint all return x reduced into [0, p); a
bigint key of either sign is likewise reduced; and string inputs are
whitespace-trimmed before parsing (padding a key string with whitespace does
not change the result).  A hex string with a 0x prefix denotes a nonnegative
integer, so the string paths are stated for natural x. -/
theorem parseUserKeyStr_eq (s : String) :
    parseUserKeyStr s = (jsBigIntChars? (trimChars s.data)).map modF := by
  unfold parseUserKeyStr
  exact ite_self _

theorem c9_parseUserKey_canonical :
    (∀ x : ℕ,
        parseUserKeyStr (hexStringOf x) = some ((x : ℤ) % p) ∧
        parseUserKeyStr (decStringOf x) = some ((x : ℤ) % p) ∧
        parseUserKeyInt (x : ℤ) = (x : ℤ) % p) ∧
    (∀ x : ℤ, parseUserKeyInt x = x % p) ∧
    (∀ (s t u : String), (∀ c ∈ t.data, isJsWs c = true) → (∀ c ∈ u.data, isJsWs c = true) →
        parseUserKeyStr (t ++ s ++ u) = parseUserKeyStr s) := by
  refine ⟨fun x => ⟨?_, ?_, modF_eq_emod _⟩, fun x => modF_eq_emod x, fun s t u h1 h2 => ?_⟩
  · -- hex path
    rw [parseUserKeyStr_eq]
    have hall : ∀ c ∈ ('0' :: 'x' :: natDigitsStr 16 x), isJsWs c = false := by
      intro c hc
      simp only [List.mem_cons] at hc
      rcases hc with rfl | rfl | hc
      · decide
      · decide
      · exact natDigitsStr_not_ws (le_refl 16) (by omega) c hc
    have hdata : (hexStringOf x).data = '0' :: 'x' :: natDigitsStr 16 x := rfl
    rw [hdata, trimChars_of_all_false hall]
    have hbig : jsBigIntChars? ('0' :: 'x' :: natDigitsStr 16 x) = some ((x : ℕ) : ℤ) := by
      unfold jsBigIntChars?
      rw [if_neg (by simp), if_pos (Or.inl (by simp))]
      simp only [List.drop_succ_cons, List.drop_zero]
      rw [parseDigits_natDigitsStr hexDigit? 16 (by omega) hexDigit_digitChar x]
      rfl
    rw [hbig]
    simp [modF_eq_emod]
  · -- decimal path
    rw [parseUserKeyStr_eq]
    have hall : ∀ c ∈ natDigitsStr 10 x, isJsWs c = false :=
      natDigitsStr_not_ws (by omega) (by omega)
    have hshape := natDigitsStr_shape (b := 10) (x := x) (by omega) (by omega)
    have hnx : natDigitsStr 10 x ≠ [] := natDigitsStr_ne_nil 10 x
    have hnotin : ∀ c ∈ natDigitsStr 10 x, c ≠ 'x' ∧ c ≠ 'X' ∧ c ≠ '-' ∧ c ≠ '+' := by
      intro c hc
      obtain ⟨e, he, hceq⟩ : ∃ e, e < 10 ∧ c = digitChar e := by
        unfold natDigitsStr at hc
        by_cases h0 : x = 0
        · rw [if_pos h0] at hc
          simp only [List.mem_singleton] at hc
          exact ⟨0, by omega, by rw [hc]; rfl⟩
        · rw [if_neg h0] at hc
          obtain ⟨e, he2, heq⟩ := List.mem_map.mp hc
          exact ⟨e, Nat.digits_lt_base (by omega) (List.mem_reverse.mp he2), heq.symm⟩
      rw [hceq]
      exact digitChar_ne_special e he
    have htake : trimChars (natDigitsStr 10 x) = natDigitsStr 10 x := trimChars_of_all_false hall
    have htk : (natDigitsStr 10 x).take 2 ≠ ['0', 'x'] := by
      intro hcon
      have hmem : 'x' ∈ (natDigitsStr 10 x).take 2 := by
        rw [hcon]; exact List.mem_cons_of_mem _ (List.mem_cons_self _ _)
      exact ((hnotin _ (List.take_subset 2 _ hmem)).1 rfl).elim
    have htk2 : (natDigitsStr 10 x).take 2 ≠ ['0', 'X'] := by
      intro hcon
      have hmem : 'X' ∈ (natDigitsStr 10 x).take 2 := by
        rw [hcon]; exact List.mem_cons_of_mem _ (List.mem_cons_self _ _)
      exact ((hnotin _ (List.take_subset 2 _ hmem)).2.1 rfl).elim
    have hhd : ∀ c, (natDigitsStr 10 x).head? = some c → c ∈ natDigitsStr 10 x := by
      intro c hc
      cases hl : natDigitsStr 10 x with
      | nil => rw [hl] at hc; exact absurd hc (by simp)
      | cons a t =>
        rw [hl] at hc
        simp only [List.head?_cons, Option.some_inj] at hc
        rw [hc]
        exact List.mem_cons_self _ _
    have hbig : jsBigIntChars? (natDigitsStr 10 x) = some ((x : ℕ) : ℤ) := by
      unfold jsBigIntChars?
      rw [if_neg hnx, if_neg (by push_neg; exact ⟨htk, htk2⟩), if_neg ?hminus, if_neg ?hplus]
      case hminus =>
        intro hcon
        exact ((hnotin _ (hhd _ hcon)).2.2.1 rfl).elim
      case hplus =>
        intro hcon
        exact ((hnotin _ (hhd _ hcon)).2.2.2 rfl).elim
      rw [parseDigits_natDigitsStr decDigit? 10 (by omega) decDigit_digitChar x]
      rfl
    have hdata : (decStringOf x).data = natDigitsStr 10 x := rfl
    rw [hdata, htake, hbig]
    simp [modF_eq_emod]
  · -- whitespace padding
    rw [parseUserKeyStr_eq, parseUserKeyStr_eq]
    have hdata : (t ++ s ++ u).data = t.data ++ s.data ++ u.data := by
      simp
    rw [hdata, trimChars_pad h1 h2]

/-- Witness for c9_parseUserKey_canonical: whitespace padding of the key
string "0x2a" with a space and two spaces. -/
theorem c9_parseUserKey_canonical_witness :
    ((∀ c ∈ (" " : String).data, isJsWs c = true) ∧
     (∀ c ∈ ("  " : String).data, isJsWs c = true)) ∧
    parseUserKeyStr (" " ++ "0x2a" ++ "  ") = parseUserKeyStr "0x2a" :=
  ⟨⟨by decide, by decide⟩,
   c9_parseUserKey_canonical.2.2 "0x2a" " " "  " (by decide) (by decide)⟩

/-! Notes and commitment derivation. -/

/-- Spending status of a note. -/
inductive NoteStatus where
  | unspent
  | spent
deriving DecidableEq, Repr

/-- Kind of note. -/
inductive NoteKind where
  | deposit
  | change
  | refund
deriving DecidableEq, Repr

/-- Embeds the Note record of types/Note.ts, restricted to the fields the
verified code reads.  The pool address is the 160-bit numeric address value
(see contextField); `amount` is a decimal string in the source, modelled as
its parsed integer value with `none` for a null/undefined amount (the
pending-deposit guard in the discovery service checks for exactly that);
`label` is kept as a string because discovery stores the non-numeric
placeholder "Pending Deposit #i" for unactivated deposits. -/
structure Note where
  poolAddress : ℕ
  depositIndex : ℕ
  changeIndex : ℕ
  noteType : NoteKind
  amount : Option ℤ
  originTransactionHash : String
  destinationTransactionHash : String
  originChainId : ℤ
  destinationChainId : ℤ
  blockNumber : ℤ
  timestamp : ℤ
  status : NoteStatus
  isActivated : Bool
  label : String
  refundCommitment : Option String
deriving DecidableEq, Repr

/-- Embeds `derivedNoteCommitment(accountKey, note)`: deposit derivations when
`changeIndex === 0`, change derivations otherwise, then
`poseidon3([BigInt(note.amount), BigInt(note.label), poseidon2([nullifier, secret])])`.
The two `BigInt` conversions throw on a null amount or a non-numeric label;
a throw is modelled as `none`. -/
def derivedNoteCommitment (P : Primitives) (accountKey : ℤ) (note : Note) : Option ℤ :=
  let nullifier :=
    if note.changeIndex = 0 then
      deriveDepositNullifier P accountKey note.poolAddress note.depositIndex
    else
      deriveChangeNullifier P accountKey note.poolAddress note.depositIndex note.changeIndex
  let secret :=
    if note.changeIndex = 0 then
      deriveDepositSecret P accountKey note.poolAddress note.depositIndex
    else
      deriveChangeSecret P accountKey note.poolAddress note.depositIndex note.changeIndex
  match note.amount, jsBigIntChars? note.label.data with
  | some a, some l => some (P.poseidon3 a l (P.poseidon2 nullifier secret))
  | _, _ => none

/-! Withdrawal context assembly (WithdrawalContextService.ts). -/

/-- Standard (non-packed) ABI encoder for the context-hash tuple
`((address, bytes), uint256)`, treated as an abstract byte encoder: the
claims consume the context hash opaquely, so only the keccak-then-reduce
composition is modelled on top of it. -/
structure AbiEncoder where
  encodeContext : String × String → ℤ → List ℕ

/-- Embeds `hashToBigInt(data) = BigInt(keccak256(data)) % SNARK_SCALAR_FIELD`
(the keccak digest is nonnegative, so the JS remainder is the Euclidean one). -/
def hashToBigInt (P : Primitives) (bytes : List ℕ) : ℤ := (P.keccak bytes : ℤ) % p

/-- Embeds `calculateContextHash(withdrawalData, poolScope)`. -/
def calculateContextHash (P : Primitives) (E : AbiEncoder)
    (withdrawalData : String × String) (poolScope : ℤ) : ℤ :=
  hashToBigInt P (E.encodeContext withdrawalData poolScope)

/-- Withdrawal context record of WithdrawalContextService.ts. -/
structure WithdrawalContext where
  context : ℤ
  newNullifier : ℤ
  newSecret : ℤ
  existingNullifier : ℤ
  existingSecret : ℤ
  existingCommitment : ℤ
deriving DecidableEq, Repr

/-- Cross-chain withdrawal context record. -/
structure CrosschainWithdrawalContext extends WithdrawalContext where
  refundNullifier : ℤ
  refundSecret : ℤ
  refundCommitment : ℤ
deriving DecidableEq, Repr

/-- Embeds `calculateWithdrawalContext(note, accountKey, withdrawalData, poolScope)`. -/
def calculateWithdrawalContext (P : Primitives) (E : AbiEncoder) (note : Note)
    (accountKey : ℤ) (withdrawalData : String × String) (poolScope : ℤ) :
    Option WithdrawalContext :=
  let context := calculateContextHash P E withdrawalData poolScope
  match derivedNoteCommitment P accountKey note with
  | none => none
  | some existingCommitment =>
    let newNullifier :=
      deriveChangeNullifier P accountKey note.poolAddress note.depositIndex (note.changeIndex + 1)
    let newSecret :=
      deriveChangeSecret P accountKey note.poolAddress note.depositIndex (note.changeIndex + 1)
    let existingNullifier :=
      if note.changeIndex = 0 then
        deriveDepositNullifier P accountKey note.poolAddress note.depositIndex
      else
        deriveChangeNullifier P accountKey note.poolAddress note.depositIndex note.changeIndex
    let existingSecret :=
      if note.changeIndex = 0 then
        deriveDepositSecret P accountKey note.poolAddress note.depositIndex
      else
        deriveChangeSecret P accountKey note.poolAddress note.depositIndex note.changeIndex
    some { context := context, newNullifier := newNullifier, newSecret := newSecret,
           existingNullifier := existingNullifier, existingSecret := existingSecret,
           existingCommitment := existingCommitment }

/-- Embeds `calculateCrosschainWithdrawalContext(note, accountKey, withdrawalData, poolScope)`:
the base context, refund derivations at `changeIndex + 1`, and
`refundCommitment = poseidon3([BigInt(note.amount), BigInt(note.label), poseidon2([refundNullifier, refundSecret])])`. -/
def calculateCrosschainWithdrawalContext (P : Primitives) (E : AbiEncoder) (note : Note)
    (accountKey : ℤ) (withdrawalData : String × String) (poolScope : ℤ) :
    Option CrosschainWithdrawalContext :=
  match calculateWithdrawalContext P E note accountKey withdrawalData poolScope with
  | none => none
  | some base =>
    let refundNullifier :=
      deriveRefundNullifier P accountKey note.poolAddress note.depositIndex (note.changeIndex + 1)
    let refundSecret :=
      deriveRefundSecret P accountKey note.poolAddress note.depositIndex (note.changeIndex + 1)
    let refundPrecommitment := P.poseidon2 refundNullifier refundSecret
    match note.amount, jsBigIntChars? note.label.data with
    | some remainingAmount, some l =>
      some { toWithdrawalContext := base, refundNullifier := refundNullifier,
             refundSecret := refundSecret,
             refundCommitment := P.poseidon3 remainingAmount l refundPrecommitment }
    | _, _ => none

theorem derivedNoteCommitment_eq (P : Primitives) (k : ℤ) (note : Note) (a l : ℤ)
    (ha : note.amount = some a) (hl : jsBigIntChars? note.label.data = some l) :
    derivedNoteCommitment P k note =
      some (P.poseidon3 a l (P.poseidon2
        (if note.changeIndex = 0 then
          deriveDepositNullifier P k note.poolAddress note.depositIndex
         else deriveChangeNullifier P k note.poolAddress note.depositIndex note.changeIndex)
        (if note.changeIndex = 0 then
          deriveDepositSecret P k note.poolAddress note.depositIndex
         else deriveChangeSecret P k note.poolAddress note.depositIndex note.changeIndex))) := by
  unfold derivedNoteCommitment
  rw [ha, hl]

theorem calculateWithdrawalContext_eq (P : Primitives) (E : AbiEncoder) (note : Note)
    (k : ℤ) (wd : String × String) (scope : ℤ) (a l : ℤ)
    (ha : note.amount = some a) (hl : jsBigIntChars? note.label.data = some l) :
    calculateWithdrawalContext P E note k wd scope = some
      { context := calculateContextHash P E wd scope,
        newNullifier := deriveChangeNullifier P k note.poolAddress note.depositIndex (note.changeIndex + 1),
        newSecret := deriveChangeSecret P k note.poolAddress note.depositIndex (note.changeIndex + 1),
        existingNullifier :=
          if note.changeIndex = 0 then
            deriveDepositNullifier P k note.poolAddress note.depositIndex
          else deriveChangeNullifier P k note.poolAddress note.depositIndex note.changeIndex,
        existingSecret :=
          if note.changeIndex = 0 then
            deriveDepositSecret P k note.poolAddress note.depositIndex
          else deriveChangeSecret P k note.poolAddress note.depositIndex note.changeIndex,
        existingCommitment := P.poseidon3 a l (P.poseidon2
          (if note.changeIndex = 0 then
            deriveDepositNullifier P k note.poolAddress note.depositIndex
           else deriveChangeNullifier P k note.poolAddress note.depositIndex note.changeIndex)
          (if note.changeIndex = 0 then
            deriveDepositSecret P k note.poolAddress note.depositIndex
           else deriveChangeSecret P k note.poolAddress note.depositIndex note.changeIndex)) } := by
  unfold calculateWithdrawalContext
  rw [derivedNoteCommitment_eq P k note a l ha hl]

/-- C2: for every account key and every note whose amount and label are
present (parse as integers), derivedNoteCommitment equals
poseidon3(amount, label, poseidon2(nullifier, secret)) with (nullifier,
secret) the deposit derivations at (poolAddress, depositIndex) when
changeIndex = 0 and the change derivations at changeIndex otherwise; and
calculateWithdrawalContext returns exactly this value as existingCommitment
and the same pair as existingNullifier / existingSecret. -/
theorem c2_commitment_composition (P : Primitives) (E : AbiEncoder) (k : ℤ) (note : Note)
    (a l : ℤ) (wd : String × String) (scope : ℤ)
    (ha : note.amount = some a) (hl : jsBigIntChars? note.label.data = some l) :
    derivedNoteCommitment P k note =
      some (P.poseidon3 a l (P.poseidon2
        (if note.changeIndex = 0 then
          deriveDepositNullifier P k note.poolAddress note.depositIndex
         else deriveChangeNullifier P k note.poolAddress note.depositIndex note.changeIndex)
        (if note.changeIndex = 0 then
          deriveDepositSecret P k note.poolAddress note.depositIndex
         else deriveChangeSecret P k note.poolAddress note.depositIndex note.changeIndex))) ∧
    ∃ w, calculateWithdrawalContext P E note k wd scope = some w ∧
      w.existingCommitment = P.poseidon3 a l (P.poseidon2
        (if note.changeIndex = 0 then
          deriveDepositNullifier P k note.poolAddress note.depositIndex
         else deriveChangeNullifier P k note.poolAddress note.depositIndex note.changeIndex)
        (if note.changeIndex = 0 then
          deriveDepositSecret P k note.poolAddress note.depositIndex
         else deriveChangeSecret P k note.poolAddress note.depositIndex note.changeIndex)) ∧
      w.existingNullifier =
        (if note.changeIndex = 0 then
          deriveDepositNullifier P k note.poolAddress note.depositIndex
         else deriveChangeNullifier P k note.poolAddress note.depositIndex note.changeIndex) ∧
      w.existingSecret =
        (if note.changeIndex = 0 then
          deriveDepositSecret P k note.poolAddress note.depositIndex
         else deriveChangeSecret P k note.poolAddress note.depositIndex note.changeIndex) := by
  refine ⟨derivedNoteCommitment_eq P k note a l ha hl, ?_⟩
  rw [calculateWithdrawalContext_eq P E note k wd scope a l ha hl]
  exact ⟨_, rfl, rfl, rfl, rfl⟩

/-- Concrete note used by the witnesses below. -/
def wNote : Note :=
  { poolAddress := 3, depositIndex := 2, changeIndex := 0, noteType := NoteKind.deposit,
    amount := some 5, originTransactionHash := "0xa", destinationTransactionHash := "0xa",
    originChainId := 1, destinationChainId := 1, blockNumber := 10, timestamp := 100,
    status := NoteStatus.unspent, isActivated := true, label := "7", refundCommitment := none }

/-- Concrete stand-in ABI encoder used by the witnesses below. -/
def cEncoder : AbiEncoder := ⟨fun _ _ => [1, 2, 3]⟩

/-- Witness for c2_commitment_composition at the concrete note wNote. -/
theorem c2_commitment_composition_witness :
    (wNote.amount = some 5 ∧ jsBigIntChars? wNote.label.data = some 7) ∧
    derivedNoteCommitment concretePrimitives 1 wNote =
      some (concretePrimitives.poseidon3 5 7 (concretePrimitives.poseidon2
        (if wNote.changeIndex = 0 then
          deriveDepositNullifier concretePrimitives 1 wNote.poolAddress wNote.depositIndex
         else deriveChangeNullifier concretePrimitives 1 wNote.poolAddress wNote.depositIndex wNote.changeIndex)
        (if wNote.changeIndex = 0 then
          deriveDepositSecret concretePrimitives 1 wNote.poolAddress wNote.depositIndex
         else deriveChangeSecret concretePrimitives 1 wNote.poolAddress wNote.depositIndex wNote.changeIndex))) :=
  ⟨⟨rfl, by decide⟩,
   (c2_commitment_composition concretePrimitives cEncoder 1 wNote 5 7 ("0x", "0x") 0
      rfl (by decide)).1⟩

/-- C3: for every note with present amount and label, the cross-chain
withdrawal context carries refundNullifier and refundSecret derived with the
refund tags at (poolAddress, depositIndex, changeIndex + 1), and
refundCommitment = poseidon3(amount, label, poseidon2(refundNullifier,
refundSecret)); and, when the refund derivations differ from the change
derivations at the same coordinate (which the disjoint domain tags ensure for
a collision-free poseidon, stated here as injectivity hypotheses), the
refundCommitment differs from the change-note commitment built from
newNullifier / newSecret. -/
theorem c3_crosschain_refund (P : Primitives) (E : AbiEncoder) (k : ℤ) (note : Note)
    (a l : ℤ) (wd : String × String) (scope : ℤ)
    (ha : note.amount = some a) (hl : jsBigIntChars? note.label.data = some l)
    (hp3 : ∀ a2 l2 x y, P.poseidon3 a2 l2 x = P.poseidon3 a2 l2 y → x = y)
    (hp2 : Function.Injective2 P.poseidon2)
    (hne : (deriveRefundNullifier P k note.poolAddress note.depositIndex (note.changeIndex + 1),
            deriveRefundSecret P k note.poolAddress note.depositIndex (note.changeIndex + 1)) ≠
           (deriveChangeNullifier P k note.poolAddress note.depositIndex (note.changeIndex + 1),
            deriveChangeSecret P k note.poolAddress note.depositIndex (note.changeIndex + 1))) :
    ∃ w, calculateCrosschainWithdrawalContext P E note k wd scope = some w ∧
      w.refundNullifier =
        deriveRefundNullifier P k note.poolAddress note.depositIndex (note.changeIndex + 1) ∧
      w.refundSecret =
        deriveRefundSecret P k note.poolAddress note.depositIndex (note.changeIndex + 1) ∧
      w.refundCommitment = P.poseidon3 a l (P.poseidon2 w.refundNullifier w.refundSecret) ∧
      w.newNullifier =
        deriveChangeNullifier P k note.poolAddress note.depositIndex (note.changeIndex + 1) ∧
      w.newSecret =
        deriveChangeSecret P k note.poolAddress note.depositIndex (note.changeIndex + 1) ∧
      w.refundCommitment ≠ P.poseidon3 a l (P.poseidon2 w.newNullifier w.newSecret) := by
  unfold calculateCrosschainWithdrawalContext
  rw [calculateWithdrawalContext_eq P E note k wd scope a l ha hl, ha, hl]
  refine ⟨_, rfl, rfl, rfl, rfl, rfl, rfl, ?_⟩
  intro hcon
  have h2 := hp3 a l _ _ hcon
  have h3 := hp2 h2
  exact hne (by rw [h3.1, h3.2])

/-- Witness for c3_crosschain_refund at the concrete note wNote with the
stand-in injective primitives. -/
theorem c3_crosschain_refund_witness :
    (wNote.amount = some 5 ∧ jsBigIntChars? wNote.label.data = some 7 ∧
     (deriveRefundNullifier concretePrimitives 1 wNote.poolAddress wNote.depositIndex
        (wNote.changeIndex + 1),
      deriveRefundSecret concretePrimitives 1 wNote.poolAddress wNote.depositIndex
        (wNote.changeIndex + 1)) ≠
     (deriveChangeNullifier concretePrimitives 1 wNote.poolAddress wNote.depositIndex
        (wNote.changeIndex + 1),
      deriveChangeSecret concretePrimitives 1 wNote.poolAddress wNote.depositIndex
        (wNote.changeIndex + 1))) ∧
    ∃ w, calculateCrosschainWithdrawalContext concretePrimitives cEncoder wNote 1
          ("0x", "0x") 0 = some w ∧
      w.refundNullifier =
        deriveRefundNullifier concretePrimitives 1 wNote.poolAddress wNote.depositIndex
          (wNote.changeIndex + 1) ∧
      w.refundSecret =
        deriveRefundSecret concretePrimitives 1 wNote.poolAddress wNote.depositIndex
          (wNote.changeIndex + 1) ∧
      w.refundCommitment =
        concretePrimitives.poseidon3 5 7
          (concretePrimitives.poseidon2 w.refundNullifier w.refundSecret) ∧
      w.newNullifier =
        deriveChangeNullifier concretePrimitives 1 wNote.poolAddress wNote.depositIndex
          (wNote.changeIndex + 1) ∧
      w.newSecret =
        deriveChangeSecret concretePrimitives 1 wNote.poolAddress wNote.depositIndex
          (wNote.changeIndex + 1) ∧
      w.refundCommitment ≠
        concretePrimitives.poseidon3 5 7
          (concretePrimitives.poseidon2 w.newNullifier w.newSecret) :=
  ⟨⟨rfl, by decide, by decide⟩,
   c3_crosschain_refund concretePrimitives cEncoder 1 wNote 5 7 ("0x", "0x") 0
     rfl (by decide) (fun a2 l2 x y => concretePoseidon3_inj3 a2 l2)
     concretePoseidon2_injective2 (by decide)⟩

/-! Lean incremental Merkle tree and proof-input preparation
(WithdrawalProofGenerator). -/

/-- Modelled from the spec: the Lean-IMT of section 4.3.  The
`@zk-kit/lean-imt` library the proof generator instantiates with
`(a, b) => poseidon2([a, b])` is an external dependency whose code is not in
the repository; it is modelled here per the spec: an append-only binary tree
whose single-child nodes propagate unchanged to the next level.
`imtLevelUp` computes one level of parent nodes from a level of child
nodes. -/
def imtLevelUp (h : ℤ → ℤ → ℤ) : List ℤ → List ℤ
  | [] => []
  | [a] => [a]
  | a :: b :: rest => h a b :: imtLevelUp h rest

/-- Nodes `levels` levels above the given level. -/
def imtLevels (h : ℤ → ℤ → ℤ) : ℕ → List ℤ → List ℤ
  | 0, nodes => nodes
  | d + 1, nodes => imtLevels h d (imtLevelUp h nodes)

/-- Modelled from the spec: the Lean-IMT depth is the ceiling of log2 of the
leaf count (0 for zero or one leaf), that is, the least `d` with
`size ≤ 2 ^ d`.  It is computed by bounded search so that it evaluates by
kernel reduction; 64 levels cover every tree the SDK can build (the circuit
caps at 32). -/
def imtDepth (size : ℕ) : ℕ :=
  (((List.range 64).find? (fun d => size ≤ 2 ^ d)).getD 64)

/-- Root of the tree: the single node at the top level. -/
def imtRoot (h : ℤ → ℤ → ℤ) (leaves : List ℤ) : ℤ :=
  (imtLevels h (imtDepth leaves.length) leaves).headD 0

/-- Lean-IMT inclusion proof.  `index` is `none` when the path is empty (the
library computes `parseInt("", 2)`, which is NaN, for the degenerate
single-leaf tree); the proof generator guards against exactly that. -/
structure IMTProof where
  root : ℤ
  leaf : ℤ
  index : Option ℕ
  siblings : List ℤ
deriving DecidableEq, Repr

/-- Modelled from the spec: walking from the leaf level upward, each level
contributes its sibling to `siblings` and its direction bit to the path when
the sibling exists; a lone node at the end of a level has no sibling and
contributes nothing. -/
def imtProofAux (h : ℤ → ℤ → ℤ) : ℕ → List ℤ → ℕ → (List ℤ × List Bool)
  | 0, _, _ => ([], [])
  | d + 1, nodes, idx =>
    let sibIdx := if idx % 2 = 1 then idx - 1 else idx + 1
    let rest := imtProofAux h d (imtLevelUp h nodes) (idx / 2)
    match nodes.get? sibIdx with
    | some s => (s :: rest.1, (idx % 2 == 1) :: rest.2)
    | none => rest

/-- Path bits (leaf level first) to the proof index: the library reverses the
path, joins it to a binary string and parses it, so an empty path gives NaN
(modelled as none). -/
def pathIndex (path : List Bool) : Option ℕ :=
  if path = [] then none
  else some (path.reverse.foldl (fun a b2 => 2 * a + (if b2 then 1 else 0)) 0)

/-- Modelled from the spec: Lean-IMT `generateProof(index)`. -/
def imtGenerateProof (h : ℤ → ℤ → ℤ) (leaves : List ℤ) (idx : ℕ) : IMTProof :=
  let pr := imtProofAux h (imtDepth leaves.length) leaves idx
  { root := imtRoot h leaves, leaf := leaves.getD idx 0,
    index := pathIndex pr.2, siblings := pr.1 }

/-- Embeds `padArray(arr, length)`: unchanged when already long enough,
otherwise padded at the end with `BigInt(0)`. -/
def padArray (arr : List ℤ) (len : ℕ) : List ℤ :=
  if len ≤ arr.length then arr else arr ++ List.replicate (len - arr.length) 0

/-- Value of one named signal in the circuit-input record: the source builds
a JavaScript object whose properties are decimal strings, plain numbers, or
arrays of decimal strings, and the distinction is preserved here. -/
inductive SignalValue where
  | str (s : String)
  | num (n : ℕ)
  | arr (l : List SignalValue)

/-- Discriminator: is this signal value a string? -/
def SignalValue.isStr : SignalValue → Bool
  | .str _ => true
  | _ => false

/-- Embeds bigint `.toString()`: the decimal representation. -/
def intToDecStr (z : ℤ) : String := toString z

/-- Embeds number/bigint `.toString()` for nonnegative values. -/
def natToDecStr (n : ℕ) : String := toString n

/-- Embeds `WithdrawalProofArgs`. -/
structure WithdrawalProofArgs where
  existingCommitmentHash : ℤ
  existingValue : ℤ
  existingNullifier : ℤ
  existingSecret : ℤ
  withdrawalValue : ℤ
  context : ℤ
  label : ℤ
  newNullifier : ℤ
  newSecret : ℤ
  stateTreeCommitments : List ℤ
  aspTreeLabels : List ℤ
deriving DecidableEq, Repr

/-- Embeds `CrosschainWithdrawalProofArgs`. -/
structure CrosschainWithdrawalProofArgs extends WithdrawalProofArgs where
  refundNullifier : ℤ
  refundSecret : ℤ
deriving DecidableEq, Repr

/-- Errors raised before proof generation: "Existing commitment not found in
state tree" and "Commitment label not found in ASP tree". -/
inductive ProofError where
  | commitmentNotFound
  | labelNotFound
deriving DecidableEq, Repr

/-- Embeds `Array.prototype.indexOf`: the first index of the value, `-1` when
absent. -/
def jsIndexOfAux (a : ℤ) : List ℤ → ℕ → ℤ
  | [], _ => -1
  | x :: xs, i => if x = a then (i : ℤ) else jsIndexOfAux a xs (i + 1)

/-- Embeds `list.indexOf(a)`. -/
def jsIndexOf (l : List ℤ) (a : ℤ) : ℤ := jsIndexOfAux a l 0

/-- Embeds `prepareCircuitInputs`: the record of named signals handed to
`snarkjs.groth16.fullProve`, in source order.  Every scalar field is a
decimal string and the sibling arrays are arrays of decimal strings, except
`stateIndex` and `ASPIndex`, which the source passes as plain numbers
(`stateIndex: stateIndex`, no `.toString()`). -/
def prepareCircuitInputs (withdrawalValue existingValue existingNullifier existingSecret
    context label newNullifier newSecret : ℤ) (stateProof aspProof : IMTProof)
    (stateTreeDepth ASPTreeDepth : ℕ) (stateIndex aspIndex : ℕ) :
    List (String × SignalValue) :=
  [("withdrawnValue", SignalValue.str (intToDecStr withdrawalValue)),
   ("stateRoot", SignalValue.str (intToDecStr stateProof.root)),
   ("ASPRoot", SignalValue.str (intToDecStr aspProof.root)),
   ("stateTreeDepth", SignalValue.str (natToDecStr stateTreeDepth)),
   ("ASPTreeDepth", SignalValue.str (natToDecStr ASPTreeDepth)),
   ("context", SignalValue.str (intToDecStr context)),
   ("label", SignalValue.str (intToDecStr label)),
   ("existingValue", SignalValue.str (intToDecStr existingValue)),
   ("existingNullifier", SignalValue.str (intToDecStr existingNullifier)),
   ("existingSecret", SignalValue.str (intToDecStr existingSecret)),
   ("newNullifier", SignalValue.str (intToDecStr newNullifier)),
   ("newSecret", SignalValue.str (intToDecStr newSecret)),
   ("stateSiblings", SignalValue.arr ((padArray stateProof.siblings 32).map
      (fun s => SignalValue.str (intToDecStr s)))),
   ("ASPSiblings", SignalValue.arr ((padArray aspProof.siblings 32).map
      (fun s => SignalValue.str (intToDecStr s)))),
   ("stateIndex", SignalValue.num stateIndex),
   ("ASPIndex", SignalValue.num aspIndex)]

/-- Embeds `prepareCrossChainWithdrawalCircuitInputs`: as above with the two
refund signals after `newSecret`. -/
def prepareCrossChainCircuitInputs (withdrawalValue existingValue existingNullifier
    existingSecret context label newNullifier newSecret refundNullifier refundSecret : ℤ)
    (stateProof aspProof : IMTProof) (stateTreeDepth ASPTreeDepth : ℕ)
    (stateIndex aspIndex : ℕ) : List (String × SignalValue) :=
  [("withdrawnValue", SignalValue.str (intToDecStr withdrawalValue)),
   ("stateRoot", SignalValue.str (intToDecStr stateProof.root)),
   ("ASPRoot", SignalValue.str (intToDecStr aspProof.root)),
   ("stateTreeDepth", SignalValue.str (natToDecStr stateTreeDepth)),
   ("ASPTreeDepth", SignalValue.str (natToDecStr ASPTreeDepth)),
   ("context", SignalValue.str (intToDecStr context)),
   ("label", SignalValue.str (intToDecStr label)),
   ("existingValue", SignalValue.str (intToDecStr existingValue)),
   ("existingNullifier", SignalValue.str (intToDecStr existingNullifier)),
   ("existingSecret", SignalValue.str (intToDecStr existingSecret)),
   ("newNullifier", SignalValue.str (intToDecStr newNullifier)),
   ("newSecret", SignalValue.str (intToDecStr newSecret)),
   ("refundNullifier", SignalValue.str (intToDecStr refundNullifier)),
   ("refundSecret", SignalValue.str (intToDecStr refundSecret)),
   ("stateSiblings", SignalValue.arr ((padArray stateProof.siblings 32).map
      (fun s => SignalValue.str (intToDecStr s)))),
   ("ASPSiblings", SignalValue.arr ((padArray aspProof.siblings 32).map
      (fun s => SignalValue.str (intToDecStr s)))),
   ("stateIndex", SignalValue.num stateIndex),
   ("ASPIndex", SignalValue.num aspIndex)]

/-- Embeds `generateWithdrawalProof` up to the `snarkjs.groth16.fullProve`
call: build the two trees from the supplied leaf lists, locate the
commitment and the label (`indexOf`), raise the not-found errors, generate
the inclusion proofs and assemble the circuit inputs.  An `ok` value is what
the prover then consumes; an `error` means the function throws before any
proof is generated. -/
def generateWithdrawalProofInputs (P : Primitives) (args : WithdrawalProofArgs) :
    Except ProofError (List (String × SignalValue)) :=
  let stateIndex := jsIndexOf args.stateTreeCommitments args.existingCommitmentHash
  let aspIndex := jsIndexOf args.aspTreeLabels args.label
  if stateIndex = -1 then Except.error ProofError.commitmentNotFound
  else if aspIndex = -1 then Except.error ProofError.labelNotFound
  else
    let stateProof := imtGenerateProof P.poseidon2 args.stateTreeCommitments stateIndex.toNat
    let aspProof := imtGenerateProof P.poseidon2 args.aspTreeLabels aspIndex.toNat
    Except.ok (prepareCircuitInputs args.withdrawalValue args.existingValue
      args.existingNullifier args.existingSecret args.context args.label
      args.newNullifier args.newSecret stateProof aspProof
      (imtDepth args.stateTreeCommitments.length) (imtDepth args.aspTreeLabels.length)
      (stateProof.index.getD 0) (aspProof.index.getD 0))

/-- Embeds `generateCrosschainWithdrawalProof` up to the prover call; the
lookup and error structure is identical to the same-chain variant. -/
def generateCrosschainWithdrawalProofInputs (P : Primitives)
    (args : CrosschainWithdrawalProofArgs) :
    Except ProofError (List (String × SignalValue)) :=
  let stateIndex := jsIndexOf args.stateTreeCommitments args.existingCommitmentHash
  let aspIndex := jsIndexOf args.aspTreeLabels args.label
  if stateIndex = -1 then Except.error ProofError.commitmentNotFound
  else if aspIndex = -1 then Except.error ProofError.labelNotFound
  else
    let stateProof := imtGenerateProof P.poseidon2 args.stateTreeCommitments stateIndex.toNat
    let aspProof := imtGenerateProof P.poseidon2 args.aspTreeLabels aspIndex.toNat
    Except.ok (prepareCrossChainCircuitInputs args.withdrawalValue args.existingValue
      args.existingNullifier args.existingSecret args.context args.label
      args.newNullifier args.newSecret args.refundNullifier args.refundSecret
      stateProof aspProof
      (imtDepth args.stateTreeCommitments.length) (imtDepth args.aspTreeLabels.length)
      (stateProof.index.getD 0) (aspProof.index.getD 0))

theorem jsIndexOfAux_eq_neg_one_iff (a : ℤ) :
    ∀ (l : List ℤ) (i : ℕ), jsIndexOfAux a l i = -1 ↔ a ∉ l := by
  intro l
  induction l with
  | nil => intro i; simp [jsIndexOfAux]
  | cons x xs ih =>
    intro i
    unfold jsIndexOfAux
    by_cases hx : x = a
    · rw [if_pos hx]
      constructor
      · intro hcon
        exfalso
        have hnn : (0:ℤ) ≤ (i:ℤ) := Int.natCast_nonneg i
        omega
      · intro hnot
        exact absurd (List.mem_cons.mpr (Or.inl hx.symm)) hnot
    · rw [if_neg hx, ih (i + 1)]
      constructor
      · intro h hmem
        rcases List.mem_cons.mp hmem with rfl | hmem2
        · exact hx rfl
        · exact h hmem2
      · intro h hmem
        exact h (List.mem_cons_of_mem x hmem)

theorem jsIndexOf_eq_neg_one_iff (l : List ℤ) (a : ℤ) : jsIndexOf l a = -1 ↔ a ∉ l :=
  jsIndexOfAux_eq_neg_one_iff a l 0

theorem generateWithdrawalProofInputs_spec (P : Primitives) (args : WithdrawalProofArgs) :
    (args.existingCommitmentHash ∉ args.stateTreeCommitments →
      generateWithdrawalProofInputs P args = Except.error ProofError.commitmentNotFound) ∧
    (args.existingCommitmentHash ∈ args.stateTreeCommitments →
      args.label ∉ args.aspTreeLabels →
      generateWithdrawalProofInputs P args = Except.error ProofError.labelNotFound) ∧
    (args.existingCommitmentHash ∈ args.stateTreeCommitments →
      args.label ∈ args.aspTreeLabels →
      ∃ r, generateWithdrawalProofInputs P args = Except.ok r) := by
  refine ⟨fun h1 => ?_, fun h1 h2 => ?_, fun h1 h2 => ?_⟩
  · have e1 := (jsIndexOf_eq_neg_one_iff _ _).mpr h1
    simp only [generateWithdrawalProofInputs]
    rw [if_pos e1]
  · have e1 : ¬ jsIndexOf args.stateTreeCommitments args.existingCommitmentHash = -1 :=
      fun hcon => ((jsIndexOf_eq_neg_one_iff _ _).mp hcon) h1
    have e2 := (jsIndexOf_eq_neg_one_iff _ _).mpr h2
    simp only [generateWithdrawalProofInputs]
    rw [if_neg e1, if_pos e2]
  · have e1 : ¬ jsIndexOf args.stateTreeCommitments args.existingCommitmentHash = -1 :=
      fun hcon => ((jsIndexOf_eq_neg_one_iff _ _).mp hcon) h1
    have e2 : ¬ jsIndexOf args.aspTreeLabels args.label = -1 :=
      fun hcon => ((jsIndexOf_eq_neg_one_iff _ _).mp hcon) h2
    simp only [generateWithdrawalProofInputs]
    rw [if_neg e1, if_neg e2]
    exact ⟨_, rfl⟩

theorem generateCrosschainWithdrawalProofInputs_spec (P : Primitives)
    (args : CrosschainWithdrawalProofArgs) :
    (args.existingCommitmentHash ∉ args.stateTreeCommitments →
      generateCrosschainWithdrawalProofInputs P args =
        Except.error ProofError.commitmentNotFound) ∧
    (args.existingCommitmentHash ∈ args.stateTreeCommitments →
      args.label ∉ args.aspTreeLabels →
      generateCrosschainWithdrawalProofInputs P args = Except.error ProofError.labelNotFound) ∧
    (args.existingCommitmentHash ∈ args.stateTreeCommitments →
      args.label ∈ args.aspTreeLabels →
      ∃ r, generateCrosschainWithdrawalProofInputs P args = Except.ok r) := by
  refine ⟨fun h1 => ?_, fun h1 h2 => ?_, fun h1 h2 => ?_⟩
  · have e1 := (jsIndexOf_eq_neg_one_iff _ _).mpr h1
    simp only [generateCrosschainWithdrawalProofInputs]
    rw [if_pos e1]
  · have e1 : ¬ jsIndexOf args.stateTreeCommitments args.existingCommitmentHash = -1 :=
      fun hcon => ((jsIndexOf_eq_neg_one_iff _ _).mp hcon) h1
    have e2 := (jsIndexOf_eq_neg_one_iff _ _).mpr h2
    simp only [generateCrosschainWithdrawalProofInputs]
    rw [if_neg e1, if_pos e2]
  · have e1 : ¬ jsIndexOf args.stateTreeCommitments args.existingCommitmentHash = -1 :=
      fun hcon => ((jsIndexOf_eq_neg_one_iff _ _).mp hcon) h1
    have e2 : ¬ jsIndexOf args.aspTreeLabels args.label = -1 :=
      fun hcon => ((jsIndexOf_eq_neg_one_iff _ _).mp hcon) h2
    simp only [generateCrosschainWithdrawalProofInputs]
    rw [if_neg e1, if_neg e2]
    exact ⟨_, rfl⟩

theorem notFound_characterization {res : Except ProofError (List (String × SignalValue))}
    {inState inAsp : Prop}
    (s1 : ¬ inState → res = Except.error ProofError.commitmentNotFound)
    (s2 : inState → ¬ inAsp → res = Except.error ProofError.labelNotFound)
    (s3 : inState → inAsp → ∃ r, res = Except.ok r) :
    (res = Except.error ProofError.commitmentNotFound ↔ ¬ inState) ∧
    (res = Except.error ProofError.labelNotFound ↔ (inState ∧ ¬ inAsp)) ∧
    ((∃ e, res = Except.error e) ↔ (¬ inState ∨ ¬ inAsp)) := by
  refine ⟨⟨fun h => ?_, s1⟩, ⟨fun h => ?_, fun h => s2 h.1 h.2⟩, ⟨fun h => ?_, fun h => ?_⟩⟩
  · by_cases h1 : inState
    · exfalso
      by_cases h2 : inAsp
      · obtain ⟨r, hr⟩ := s3 h1 h2
        rw [hr] at h
        exact absurd h (by simp)
      · rw [s2 h1 h2] at h
        simp at h
    · exact h1
  · by_cases h1 : inState
    · by_cases h2 : inAsp
      · exfalso
        obtain ⟨r, hr⟩ := s3 h1 h2
        rw [hr] at h
        exact absurd h (by simp)
      · exact ⟨h1, h2⟩
    · exfalso
      rw [s1 h1] at h
      simp at h
  · obtain ⟨e, he⟩ := h
    by_cases h1 : inState
    · by_cases h2 : inAsp
      · exfalso
        obtain ⟨r, hr⟩ := s3 h1 h2
        rw [hr] at he
        exact absurd he (by simp)
      · exact Or.inr h2
    · exact Or.inl h1
  · rcases h with h1 | h2
    · exact ⟨_, s1 h1⟩
    · by_cases h1 : inState
      · exact ⟨_, s2 h1 h2⟩
      · exact ⟨_, s1 h1⟩

/-- C7 (amended): the same-chain and cross-chain proof generators raise the
commitment-not-found error exactly when existingCommitmentHash does not occur
in the supplied stateTreeCommitments list; they raise the label-not-found
error exactly when the commitment occurs but label does not occur in the
supplied aspTreeLabels list (when both are absent, the commitment check fires
first and the label error is not reached); and they fail before generating
any proof (return an error and no circuit inputs) exactly when either lookup
fails. -/
theorem c7_not_found_errors (P : Primitives) (args : WithdrawalProofArgs)
    (cargs : CrosschainWithdrawalProofArgs) :
    ((generateWithdrawalProofInputs P args = Except.error ProofError.commitmentNotFound ↔
        args.existingCommitmentHash ∉ args.stateTreeCommitments) ∧
     (generateWithdrawalProofInputs P args = Except.error ProofError.labelNotFound ↔
        (args.existingCommitmentHash ∈ args.stateTreeCommitments ∧
         args.label ∉ args.aspTreeLabels)) ∧
     ((∃ e, generateWithdrawalProofInputs P args = Except.error e) ↔
        (args.existingCommitmentHash ∉ args.stateTreeCommitments ∨
         args.label ∉ args.aspTreeLabels))) ∧
    ((generateCrosschainWithdrawalProofInputs P cargs =
        Except.error ProofError.commitmentNotFound ↔
        cargs.existingCommitmentHash ∉ cargs.stateTreeCommitments) ∧
     (generateCrosschainWithdrawalProofInputs P cargs =
        Except.error ProofError.labelNotFound ↔
        (cargs.existingCommitmentHash ∈ cargs.stateTreeCommitments ∧
         cargs.label ∉ cargs.aspTreeLabels)) ∧
     ((∃ e, generateCrosschainWithdrawalProofInputs P cargs = Except.error e) ↔
        (cargs.existingCommitmentHash ∉ cargs.stateTreeCommitments ∨
         cargs.label ∉ cargs.aspTreeLabels))) := by
  obtain ⟨s1, s2, s3⟩ := generateWithdrawalProofInputs_spec P args
  obtain ⟨t1, t2, t3⟩ := generateCrosschainWithdrawalProofInputs_spec P cargs
  exact ⟨notFound_characterization s1 s2 s3, notFound_characterization t1 t2 t3⟩

/-- Concrete arguments on which both the commitment and the label are absent
from the supplied lists. -/
def c7args : WithdrawalProofArgs :=
  { existingCommitmentHash := 0, existingValue := 1, existingNullifier := 2,
    existingSecret := 3, withdrawalValue := 1, context := 4, label := 0,
    newNullifier := 5, newSecret := 6, stateTreeCommitments := [1], aspTreeLabels := [1] }

/-- Counterexample for C7 as stated: at c7args the label does not occur in
aspTreeLabels, yet no label-not-found error is raised (the generator raises
the commitment-not-found error instead), refuting "a label-not-found error
exactly when label does not occur in the supplied aspTreeLabels list". -/
theorem c7_counterexample :
    c7args.label ∉ c7args.aspTreeLabels ∧
    generateWithdrawalProofInputs concretePrimitives c7args ≠
      Except.error ProofError.labelNotFound ∧
    generateWithdrawalProofInputs concretePrimitives c7args =
      Except.error ProofError.commitmentNotFound := by
  refine ⟨by decide, ?_, rfl⟩
  intro h
  have heq : generateWithdrawalProofInputs concretePrimitives c7args =
      Except.error ProofError.commitmentNotFound := rfl
  rw [heq] at h
  simp at h

theorem padArray_eq_append {l : List ℤ} {n : ℕ} (h : l.length ≤ n) :
    padArray l n = l ++ List.replicate (n - l.length) 0 := by
  unfold padArray
  by_cases hle : n ≤ l.length
  · have h2 : n - l.length = 0 := by omega
    rw [if_pos hle, h2, List.replicate_zero, List.append_nil]
  · rw [if_neg hle]

theorem padArray_length {l : List ℤ} {n : ℕ} (h : l.length ≤ n) :
    (padArray l n).length = n := by
  rw [padArray_eq_append h, List.length_append, List.length_replicate]
  omega

/-- Inclusion proof the generator computes in the state tree
(`stateTree.generateProof(stateIndex)`). -/
def stateProofOf (P : Primitives) (args : WithdrawalProofArgs) : IMTProof :=
  imtGenerateProof P.poseidon2 args.stateTreeCommitments
    (jsIndexOf args.stateTreeCommitments args.existingCommitmentHash).toNat

/-- Inclusion proof the generator computes in the ASP tree
(`aspTree.generateProof(aspIndex)`). -/
def aspProofOf (P : Primitives) (args : WithdrawalProofArgs) : IMTProof :=
  imtGenerateProof P.poseidon2 args.aspTreeLabels
    (jsIndexOf args.aspTreeLabels args.label).toNat

/-- Nonempty all-decimal-digit string. -/
def isDecString (s : String) : Bool :=
  !s.data.isEmpty && s.data.all (fun c => 48 ≤ c.toNat && c.toNat ≤ 57)

/-- Is the signal a decimal string, or an array of decimal strings? -/
def isDecSignal : SignalValue → Bool
  | SignalValue.str s => isDecString s
  | SignalValue.num _ => false
  | SignalValue.arr l => l.all (fun v =>
      match v with
      | SignalValue.str s => isDecString s
      | _ => false)

/-- Scenario of the claim: ten state-tree leaves with the target commitment
at index 7, four approved labels with the target label at index 2. -/
def c8ScenarioArgs : WithdrawalProofArgs :=
  { existingCommitmentHash := 108, existingValue := 5, existingNullifier := 2,
    existingSecret := 3, withdrawalValue := 1, context := 4, label := 203,
    newNullifier := 5, newSecret := 6,
    stateTreeCommitments := [101, 102, 103, 104, 105, 106, 107, 108, 109, 110],
    aspTreeLabels := [201, 202, 203, 204] }

/-- The record the generator assembles in the scenario (with the stand-in
primitives; tree depths, indices, lengths and field shapes do not depend on
the hash values). -/
def c8ScenarioRecord : List (String × SignalValue) :=
  match generateWithdrawalProofInputs concretePrimitives c8ScenarioArgs with
  | Except.ok r => r
  | Except.error _ => []

/-- C8 (amended): for trees whose proofs produce siblings arrays of length at
most 32, the assembled record's stateSiblings and ASPSiblings each have
length exactly 32 and equal the Lean-IMT proof siblings followed by
field-zero padding, while stateTreeDepth and ASPTreeDepth carry the trees'
actual depths; in the scenario with 10 state leaves (target at index 7) and 4
labels (target at index 2) the record has stateTreeDepth = "4",
ASPTreeDepth = "2", stateIndex = 7, ASPIndex = 2, and every field is a
decimal string (or an array of decimal strings) except stateIndex and
ASPIndex, which are passed as plain numbers. -/
theorem c8_siblings_padding :
    (∀ (P : Primitives) (args : WithdrawalProofArgs),
      args.existingCommitmentHash ∈ args.stateTreeCommitments →
      args.label ∈ args.aspTreeLabels →
      (stateProofOf P args).siblings.length ≤ 32 →
      (aspProofOf P args).siblings.length ≤ 32 →
      ∃ rec, generateWithdrawalProofInputs P args = Except.ok rec ∧
        rec.lookup "stateSiblings" = some (SignalValue.arr
          (((stateProofOf P args).siblings ++
            List.replicate (32 - (stateProofOf P args).siblings.length) 0).map
            (fun s => SignalValue.str (intToDecStr s)))) ∧
        (∃ l2, rec.lookup "stateSiblings" = some (SignalValue.arr l2) ∧ l2.length = 32) ∧
        rec.lookup "ASPSiblings" = some (SignalValue.arr
          (((aspProofOf P args).siblings ++
            List.replicate (32 - (aspProofOf P args).siblings.length) 0).map
            (fun s => SignalValue.str (intToDecStr s)))) ∧
        (∃ l2, rec.lookup "ASPSiblings" = some (SignalValue.arr l2) ∧ l2.length = 32) ∧
        rec.lookup "stateTreeDepth" =
          some (SignalValue.str (natToDecStr (imtDepth args.stateTreeCommitments.length))) ∧
        rec.lookup "ASPTreeDepth" =
          some (SignalValue.str (natToDecStr (imtDepth args.aspTreeLabels.length)))) ∧
    (c8ScenarioRecord.lookup "stateTreeDepth" = some (SignalValue.str "4") ∧
     c8ScenarioRecord.lookup "ASPTreeDepth" = some (SignalValue.str "2") ∧
     c8ScenarioRecord.lookup "stateIndex" = some (SignalValue.num 7) ∧
     c8ScenarioRecord.lookup "ASPIndex" = some (SignalValue.num 2) ∧
     (∃ l2, c8ScenarioRecord.lookup "stateSiblings" = some (SignalValue.arr l2) ∧
        l2.length = 32) ∧
     (∃ l2, c8ScenarioRecord.lookup "ASPSiblings" = some (SignalValue.arr l2) ∧
        l2.length = 32) ∧
     c8ScenarioRecord.all
       (fun kv => kv.1 == "stateIndex" || kv.1 == "ASPIndex" || isDecSignal kv.2) = true) := by
  constructor
  · intro P args h1 h2 hs1 hs2
    have e1 : ¬ jsIndexOf args.stateTreeCommitments args.existingCommitmentHash = -1 :=
      fun hcon => ((jsIndexOf_eq_neg_one_iff _ _).mp hcon) h1
    have e2 : ¬ jsIndexOf args.aspTreeLabels args.label = -1 :=
      fun hcon => ((jsIndexOf_eq_neg_one_iff _ _).mp hcon) h2
    have hok : generateWithdrawalProofInputs P args = Except.ok
        (prepareCircuitInputs args.withdrawalValue args.existingValue
          args.existingNullifier args.existingSecret args.context args.label
          args.newNullifier args.newSecret (stateProofOf P args) (aspProofOf P args)
          (imtDepth args.stateTreeCommitments.length) (imtDepth args.aspTreeLabels.length)
          ((stateProofOf P args).index.getD 0) ((aspProofOf P args).index.getD 0)) := by
      simp only [generateWithdrawalProofInputs]
      rw [if_neg e1, if_neg e2]
      rfl
    refine ⟨_, hok, ?_, ⟨_, rfl, ?_⟩, ?_, ⟨_, rfl, ?_⟩, rfl, rfl⟩
    · show some (SignalValue.arr ((padArray (stateProofOf P args).siblings 32).map
        (fun s => SignalValue.str (intToDecStr s)))) = _
      rw [padArray_eq_append hs1]
    · rw [List.length_map, padArray_length hs1]
    · show some (SignalValue.arr ((padArray (aspProofOf P args).siblings 32).map
        (fun s => SignalValue.str (intToDecStr s)))) = _
      rw [padArray_eq_append hs2]
    · rw [List.length_map, padArray_length hs2]
  · exact ⟨rfl, rfl, rfl, rfl, ⟨_, rfl, rfl⟩, ⟨_, rfl, rfl⟩, rfl⟩

/-- Witness for c8_siblings_padding: the scenario input satisfies the
hypotheses of the general part. -/
theorem c8_siblings_padding_witness :
    (c8ScenarioArgs.existingCommitmentHash ∈ c8ScenarioArgs.stateTreeCommitments ∧
     c8ScenarioArgs.label ∈ c8ScenarioArgs.aspTreeLabels ∧
     (stateProofOf concretePrimitives c8ScenarioArgs).siblings.length ≤ 32 ∧
     (aspProofOf concretePrimitives c8ScenarioArgs).siblings.length ≤ 32) ∧
    (∃ rec, generateWithdrawalProofInputs concretePrimitives c8ScenarioArgs =
      Except.ok rec) := by
  refine ⟨⟨by decide, by decide, by decide, by decide⟩, ?_⟩
  obtain ⟨rec, hok, _⟩ := c8_siblings_padding.1 concretePrimitives c8ScenarioArgs
    (by decide) (by decide) (by decide) (by decide)
  exact ⟨rec, hok⟩

/-- Counterexample for C8 as stated: the stateIndex field of the record
assembled in the claim's own scenario is the number 7, not a decimal string,
refuting "all fields are decimal strings". -/
theorem c8_counterexample :
    c8ScenarioRecord.lookup "stateIndex" = some (SignalValue.num 7) ∧
    (c8ScenarioRecord.lookup "stateIndex").map SignalValue.isStr = some false :=
  ⟨rfl, rfl⟩

/-! Note discovery engine (NoteDiscoveryService). -/

/-- Activity variants the discovery engine dispatches on. -/
inductive ActivityType where
  | DEPOSIT
  | WITHDRAWAL
  | CROSSCHAIN_DEPOSIT
  | CROSSCHAIN_WITHDRAWAL
deriving DecidableEq, Repr

/-- Embeds the indexer Activity record, restricted to the fields the
discovery engine reads.  The hash fields are field elements serialized as
decimal strings and are compared as strings; `amount` is a bigint that may be
null for pending cross-chain deposits. -/
structure Activity where
  type : ActivityType
  amount : Option ℤ
  label : Option String
  precommitmentHash : Option String
  spentNullifier : Option String
  newCommitment : Option String
  refundCommitment : Option String
  originTransactionHash : String
  destinationTransactionHash : Option String
  originChainId : ℤ
  destinationChainId : Option ℤ
  blockNumber : ℤ
  timestamp : ℤ
deriving DecidableEq, Repr

instance : Inhabited Activity :=
  ⟨{ type := ActivityType.DEPOSIT, amount := none, label := none, precommitmentHash := none,
     spentNullifier := none, newCommitment := none, refundCommitment := none,
     originTransactionHash := "", destinationTransactionHash := none, originChainId := 0,
     destinationChainId := none, blockNumber := 0, timestamp := 0 }⟩

instance : Inhabited Note :=
  ⟨{ poolAddress := 0, depositIndex := 0, changeIndex := 0, noteType := NoteKind.deposit,
     amount := none, originTransactionHash := "", destinationTransactionHash := "",
     originChainId := 0, destinationChainId := 0, blockNumber := 0, timestamp := 0,
     status := NoteStatus.unspent, isActivated := false, label := "", refundCommitment := none }⟩

/-- JavaScript falsiness of an optional string (null, undefined, or ""). -/
def falsyStr : Option String → Bool
  | none => true
  | some s => s.isEmpty

/-- JavaScript falsiness of an optional bigint (null, undefined, or 0n). -/
def falsyAmt : Option ℤ → Bool
  | none => true
  | some z => z == 0

/-- JavaScript falsiness of a note amount: the stored amount is a decimal
string, so only null/undefined are falsy (the string "0" is truthy). -/
def falsyNoteAmt : Option ℤ → Bool
  | none => true
  | some _ => false

/-- Embeds `a || b` for an optional string against a string default. -/
def jsOrStr (a : Option String) (b : String) : String :=
  match a with
  | some s => if s = "" then b else s
  | none => b

/-- Embeds `a || b` for an optional bigint against a bigint default. -/
def jsOrInt (a : Option ℤ) (b : ℤ) : ℤ :=
  match a with
  | some z => if z = 0 then b else z
  | none => b

/-- Is the activity one of the two withdrawal variants? -/
def isWithdrawalType (t : ActivityType) : Bool :=
  t == ActivityType.WITHDRAWAL || t == ActivityType.CROSSCHAIN_WITHDRAWAL

/-- Is the activity one of the two deposit variants? -/
def isDepositType (t : ActivityType) : Bool :=
  t == ActivityType.DEPOSIT || t == ActivityType.CROSSCHAIN_DEPOSIT

/-- Sets `status = "spent"` on the last note of the chain
(`chain[chain.length - 1]!.status = "spent"`). -/
def markLastSpent : List Note → List Note
  | [] => []
  | [n] => [{ n with status := NoteStatus.spent }]
  | n :: rest => n :: markLastSpent rest

/-- Embeds the `while (true)` loop body of `extendChainInPlace`.  The loop
state mirrors the source's mutable locals: the chain being extended, the
`remaining` amount, the `changeIndex` to give the next change note, the
`currentNullifier` of the current tail, and the `withdrawalsMatched` counter.
The fuel argument bounds the repetitions; the source loop has no such bound
(its termination relies on the page being finite and poseidon being
collision-free), and every claim below holds for every fuel value. -/
def extendLoop (P : Primitives) (key : ℤ) (pool : ℕ) (acts : List Activity) :
    ℕ → List Note → ℤ → ℕ → ℤ → ℕ → (List Note × ℕ)
  | 0, chain, _, _, _, m => (chain, m)
  | fuel + 1, chain, remaining, changeIndex, currentNullifier, m =>
    let nullifierHash := intToDecStr (P.poseidon1 currentNullifier)
    match acts.find? (fun a =>
        isWithdrawalType a.type && a.spentNullifier == some nullifierHash) with
    | none => (chain, m)
    | some w =>
      if falsyStr w.newCommitment || falsyAmt w.amount then (chain, m)
      else
        let wa := w.amount.getD 0
        let remaining2 := remaining - wa
        let changeNote : Note :=
          { poolAddress := chain.head!.poolAddress,
            depositIndex := chain.head!.depositIndex,
            changeIndex := changeIndex,
            noteType := NoteKind.change,
            amount := some remaining2,
            originTransactionHash := w.originTransactionHash,
            destinationTransactionHash := jsOrStr w.destinationTransactionHash w.originTransactionHash,
            originChainId := w.originChainId,
            destinationChainId := jsOrInt w.destinationChainId w.originChainId,
            blockNumber := w.blockNumber,
            timestamp := w.timestamp,
            status := if remaining2 > 0 then NoteStatus.unspent else NoteStatus.spent,
            isActivated := true,
            label := chain.head!.label,
            refundCommitment := w.refundCommitment }
        let chain2 := markLastSpent chain ++ [changeNote]
        if remaining2 ≤ 0 then (chain2, m + 1)
        else
          extendLoop P key pool acts fuel chain2 remaining2 (changeIndex + 1)
            (deriveChangeNullifier P key pool chain.head!.depositIndex changeIndex) (m + 1)

/-- Embeds `extendChainInPlace(chain, pageActivities, accountKey, poolAddress)`
(functionally: the source mutates the chain and returns the match count).
The source asserts the chain nonempty (`chain[chain.length - 1]!`); discovery
never passes an empty chain.  A pending deposit (null amount) is skipped. -/
def extendChainInPlace (P : Primitives) (fuel : ℕ) (chain : List Note)
    (pageActivities : List Activity) (accountKey : ℤ) (poolAddress : ℕ) :
    List Note × ℕ :=
  match chain with
  | [] => ([], 0)
  | head :: _ =>
    let lastNote := chain.getLast!
    match lastNote.amount with
    | none => (chain, 0)
    | some amt =>
      let changeIndex := if lastNote.changeIndex = 0 then 1 else lastNote.changeIndex + 1
      let currentNullifier :=
        if lastNote.changeIndex = 0 then
          deriveDepositNullifier P accountKey poolAddress head.depositIndex
        else
          deriveChangeNullifier P accountKey poolAddress head.depositIndex lastNote.changeIndex
      extendLoop P accountKey poolAddress pageActivities fuel chain amt changeIndex
        currentNullifier 0

/-- Embeds `buildChainForDepositInPage(depositActivity, depositIndex,
pageActivitiesAfter, accountKey, poolAddress)`: the deposit note (pending
when the activity has no label: `isActivated = (label != null)`,
`amount = activity.amount || "0"`, `label = activity.label || "Pending Deposit #i"`)
followed by in-page extension over the activities after the deposit. -/
def buildChainForDepositInPage (P : Primitives) (fuel : ℕ) (depositActivity : Activity)
    (depositIndex : ℕ) (pageActivitiesAfter : List Activity) (accountKey : ℤ)
    (poolAddress : ℕ) : List Note :=
  let depositNote : Note :=
    { poolAddress := poolAddress,
      depositIndex := depositIndex,
      changeIndex := 0,
      noteType := NoteKind.deposit,
      amount := some (if falsyAmt depositActivity.amount then 0
                      else depositActivity.amount.getD 0),
      originTransactionHash := depositActivity.originTransactionHash,
      destinationTransactionHash :=
        jsOrStr depositActivity.destinationTransactionHash depositActivity.originTransactionHash,
      originChainId := depositActivity.originChainId,
      destinationChainId := jsOrInt depositActivity.destinationChainId depositActivity.originChainId,
      blockNumber := depositActivity.blockNumber,
      timestamp := depositActivity.timestamp,
      status := NoteStatus.unspent,
      isActivated := depositActivity.label.isSome,
      label := jsOrStr depositActivity.label ("Pending Deposit #" ++ natToDecStr depositIndex),
      refundCommitment := none }
  (extendChainInPlace P fuel [depositNote] pageActivitiesAfter accountKey poolAddress).1

/-- A live-deposit entry: a chain tail that is a candidate for extension. -/
structure LiveDeposit where
  depositIndex : ℕ
  chainIndex : ℕ
  remaining : ℤ
deriving DecidableEq, Repr

/-- Admission test for liveDeposits:
`status === "unspent" && amount && BigInt(amount) > 0n && isActivated`. -/
def liveEligible (n : Note) : Bool :=
  n.status == NoteStatus.unspent && !falsyNoteAmt n.amount &&
    n.amount.getD 0 > 0 && n.isActivated

/-- Embeds the cache initialization of liveDeposits: every cached chain whose
tail passes the admission test, with the chain's position and the tail's
amount. -/
def initLiveDeposits (notes : List (List Note)) : List LiveDeposit :=
  notes.enum.filterMap (fun pr =>
    let chain := pr.2
    let last := chain.getLast!
    if liveEligible last then
      some { depositIndex := chain.head!.depositIndex, chainIndex := pr.1,
             remaining := last.amount.getD 0 }
    else none)

/-- State the discovery loop carries across pages (the storage-provider
persistence and the opaque pagination cursor are external and are not read by
any claim). -/
structure DiscoState where
  notes : List (List Note)
  lastUsedIndex : ℤ
  nextDepositIndex : ℕ
  liveDeposits : List LiveDeposit
  depositsMatched : ℕ
deriving Repr

/-- Embeds step 1 of the per-page algorithm: for each entry of a snapshot of
liveDeposits (`[...liveDeposits]`), extend the chain at its index; when any
withdrawal matched, drop the entry if the new tail is spent or has no
positive amount, otherwise update its remaining amount. -/
def extendLiveStep (P : Primitives) (fuel : ℕ) (key : ℤ) (pool : ℕ)
    (acts : List Activity) (st : List (List Note) × List LiveDeposit)
    (ld : LiveDeposit) : List (List Note) × List LiveDeposit :=
  match st.1.get? ld.chainIndex with
  | none => st
  | some chain =>
    let res := extendChainInPlace P fuel chain acts key pool
    let notes2 := st.1.set ld.chainIndex res.1
    if res.2 > 0 then
      let lastNote := res.1.getLast!
      if lastNote.status == NoteStatus.spent || falsyNoteAmt lastNote.amount ||
          lastNote.amount.getD 0 ≤ 0 then
        (notes2, st.2.filter (fun d =>
          !(d.depositIndex == ld.depositIndex && d.chainIndex == ld.chainIndex)))
      else
        let newRemaining := lastNote.amount.getD 0
        (notes2, st.2.map (fun d =>
          if d.depositIndex == ld.depositIndex && d.chainIndex == ld.chainIndex then
            { d with remaining := newRemaining }
          else d))
    else (notes2, st.2)

def extendLivePhase (P : Primitives) (fuel : ℕ) (key : ℤ) (pool : ℕ)
    (acts : List Activity) (notes : List (List Note)) (live : List LiveDeposit) :
    List (List Note) × List LiveDeposit :=
  live.foldl (extendLiveStep P fuel key pool acts) (notes, live)

/-- Embeds step 2 of the per-page algorithm, the inner deposit-scan loop:
derive the candidate precommitment for nextDepositIndex, find the first
matching deposit activity on the page, build its chain from the activities
after it, admit the tail to liveDeposits when eligible, advance the indices
and repeat until no match.  Fuel bounds the repetitions (the source bound is
implicit in the distinctness of the derived precommitments). -/
def scanDeposits (P : Primitives) (extFuel : ℕ) (key : ℤ) (pool : ℕ)
    (acts : List Activity) :
    ℕ → List (List Note) → List LiveDeposit → ℤ → ℕ → ℕ →
    List (List Note) × List LiveDeposit × ℤ × ℕ × ℕ
  | 0, notes, live, lastUsed, nextIdx, matched => (notes, live, lastUsed, nextIdx, matched)
  | fuel + 1, notes, live, lastUsed, nextIdx, matched =>
    let depositNullifier := deriveDepositNullifier P key pool nextIdx
    let depositSecret := deriveDepositSecret P key pool nextIdx
    let targetPrecommitment := intToDecStr (P.poseidon2 depositNullifier depositSecret)
    match acts.findIdx? (fun a =>
        isDepositType a.type && a.precommitmentHash == some targetPrecommitment) with
    | none => (notes, live, lastUsed, nextIdx, matched)
    | some pos =>
      let depositActivity := acts.getD pos default
      let after := acts.drop (pos + 1)
      let newChain := buildChainForDepositInPage P extFuel depositActivity nextIdx after key pool
      let notes2 := notes ++ [newChain]
      let newChainIndex := notes2.length - 1
      let lastNote := newChain.getLast!
      let live2 :=
        if liveEligible lastNote then
          live ++ [{ depositIndex := nextIdx, chainIndex := newChainIndex,
                     remaining := lastNote.amount.getD 0 }]
        else live
      scanDeposits P extFuel key pool acts fuel notes2 live2
        (max lastUsed (nextIdx : ℤ)) (nextIdx + 1) (matched + 1)

/-- Embeds one iteration of the main discovery loop ("page"): extend live
chains (the source guards on a nonempty liveDeposits; folding over the empty
snapshot is the same, but the guard is mirrored), then scan for new deposits,
then persist (persistence is external). -/
def processPage (P : Primitives) (fuel : ℕ) (key : ℤ) (pool : ℕ) (st : DiscoState)
    (acts : List Activity) : DiscoState :=
  let ext :=
    if st.liveDeposits.length > 0 then
      extendLivePhase P fuel key pool acts st.notes st.liveDeposits
    else (st.notes, st.liveDeposits)
  let sc := scanDeposits P fuel key pool acts fuel ext.1 ext.2 st.lastUsedIndex
    st.nextDepositIndex st.depositsMatched
  { notes := sc.1, liveDeposits := sc.2.1, lastUsedIndex := sc.2.2.1,
    nextDepositIndex := sc.2.2.2.1, depositsMatched := sc.2.2.2.2 }

/-- Embeds the resume-from-cache initialization of `discoverNotes`:
`lastUsedIndex = cached?.lastUsedIndex ?? -1`, `nextDepositIndex = lastUsedIndex + 1`,
and liveDeposits seeded from the cached chains. -/
def initState (cachedNotes : List (List Note)) (cachedLastUsed : Option ℤ) : DiscoState :=
  let lastUsedIndex := cachedLastUsed.getD (-1)
  { notes := cachedNotes, lastUsedIndex := lastUsedIndex,
    nextDepositIndex := (lastUsedIndex + 1).toNat,
    liveDeposits := initLiveDeposits cachedNotes, depositsMatched := 0 }

/-- Embeds the main loop of `discoverNotes` over the successive pages the
activity fetcher returns (cursor handling, cancellation and progress
callbacks are external effects that do not alter the note state). -/
def discoverNotes (P : Primitives) (fuel : ℕ) (key : ℤ) (pool : ℕ)
    (pages : List (List Activity)) (st : DiscoState) : DiscoState :=
  pages.foldl (processPage P fuel key pool) st

theorem getLast!_concat {α : Type} [Inhabited α] : ∀ (l : List α) (a : α), (l ++ [a]).getLast! = a := by
  intro l a
  induction l with
  | nil => rfl
  | cons x xs ih =>
    cases xs with
    | nil => rfl
    | cons y ys => exact ih

theorem markLastSpent_head_poolAddress (h2 : Note) (t : List Note) :
    (markLastSpent (h2 :: t)).head!.poolAddress = h2.poolAddress := by
  cases t <;> rfl

theorem markLastSpent_head_depositIndex (h2 : Note) (t : List Note) :
    (markLastSpent (h2 :: t)).head!.depositIndex = h2.depositIndex := by
  cases t <;> rfl

theorem markLastSpent_head_label (h2 : Note) (t : List Note) :
    (markLastSpent (h2 :: t)).head!.label = h2.label := by
  cases t <;> rfl

theorem markLastSpent_cons_ne_nil (h2 : Note) (t : List Note) :
    markLastSpent (h2 :: t) ≠ [] := by
  cases t <;> simp [markLastSpent]

/-- Chain extension as the claim describes it, written from the claim's
words: compute the tail's nullifier hash (poseidon1 of the deposit nullifier
when the tail's changeIndex is 0, of the change nullifier at the tail's
changeIndex otherwise); when the first withdrawal activity on the page whose
spentNullifier equals that hash carries a non-null (non-empty) newCommitment
and a non-null, non-zero amount, mark the tail spent and append a change note
with changeIndex = tail.changeIndex + 1, amount = tail.amount − withdrawal
amount, status unspent iff the remaining amount is positive, isActivated =
true, the label of the chain head, and the withdrawal's refundCommitment;
repeat within the page until no such match is found or the remaining amount
is ≤ 0 (fuel bounds the repetition, one unit per appended note). -/
def extendChainSpec (P : Primitives) : ℕ → List Note → List Activity → ℤ → ℕ →
    (List Note × ℕ)
  | 0, chain, _, _, _ => (chain, 0)
  | fuel + 1, chain, acts, key, pool =>
    match chain with
    | [] => ([], 0)
    | head :: _ =>
      let tail := chain.getLast!
      match tail.amount with
      | none => (chain, 0)
      | some amt =>
        let tailNullifier :=
          if tail.changeIndex = 0 then deriveDepositNullifier P key pool head.depositIndex
          else deriveChangeNullifier P key pool head.depositIndex tail.changeIndex
        let nh := intToDecStr (P.poseidon1 tailNullifier)
        match acts.find? (fun a => isWithdrawalType a.type && a.spentNullifier == some nh) with
        | none => (chain, 0)
        | some w =>
          if falsyStr w.newCommitment || falsyAmt w.amount then (chain, 0)
          else
            let remaining := amt - w.amount.getD 0
            let newNote : Note :=
              { poolAddress := head.poolAddress,
                depositIndex := head.depositIndex,
                changeIndex := tail.changeIndex + 1,
                noteType := NoteKind.change,
                amount := some remaining,
                originTransactionHash := w.originTransactionHash,
                destinationTransactionHash :=
                  jsOrStr w.destinationTransactionHash w.originTransactionHash,
                originChainId := w.originChainId,
                destinationChainId := jsOrInt w.destinationChainId w.originChainId,
                blockNumber := w.blockNumber,
                timestamp := w.timestamp,
                status := if remaining > 0 then NoteStatus.unspent else NoteStatus.spent,
                isActivated := true,
                label := head.label,
                refundCommitment := w.refundCommitment }
            let chain2 := markLastSpent chain ++ [newNote]
            if remaining ≤ 0 then (chain2, 1)
            else
              let res := extendChainSpec P fuel chain2 acts key pool
              (res.1, res.2 + 1)

theorem extendLoop_eq_spec (P : Primitives) (key : ℤ) (pool : ℕ) (acts : List Activity) :
    ∀ (fuel : ℕ) (chain : List Note) (remaining : ℤ) (m : ℕ) (tailci hdi : ℕ),
      chain ≠ [] →
      chain.getLast!.amount = some remaining →
      chain.getLast!.changeIndex = tailci →
      chain.head!.depositIndex = hdi →
      extendLoop P key pool acts fuel chain remaining (tailci + 1)
        (if tailci = 0 then deriveDepositNullifier P key pool hdi
         else deriveChangeNullifier P key pool hdi tailci) m
      = ((extendChainSpec P fuel chain acts key pool).1,
         m + (extendChainSpec P fuel chain acts key pool).2) := by
  intro fuel
  induction fuel with
  | zero =>
    intro chain remaining m tailci hdi hne hamt htc hdi2
    simp [extendLoop, extendChainSpec]
  | succ fuel ih =>
    intro chain remaining m tailci hdi hne hamt htc hdi2
    subst htc
    subst hdi2
    match chain, hne with
    | head :: t, _ =>
      simp only [extendLoop, extendChainSpec, List.head!_cons, hamt]
      cases hf : acts.find? (fun a => isWithdrawalType a.type &&
          a.spentNullifier == some (intToDecStr (P.poseidon1
            (if (head :: t).getLast!.changeIndex = 0 then
              deriveDepositNullifier P key pool head.depositIndex
             else
              deriveChangeNullifier P key pool head.depositIndex
                (head :: t).getLast!.changeIndex)))) with
      | none => simp
      | some w =>
        simp only []
        by_cases hguard : (falsyStr w.newCommitment || falsyAmt w.amount) = true
        · rw [if_pos hguard, if_pos hguard]
          simp
        · rw [if_neg hguard, if_neg hguard]
          by_cases hrem : remaining - w.amount.getD 0 ≤ 0
          · rw [if_pos hrem, if_pos hrem]
          · rw [if_neg hrem, if_neg hrem]
            have hstep := ih (markLastSpent (head :: t) ++
              [{ poolAddress := head.poolAddress,
                 depositIndex := head.depositIndex,
                 changeIndex := (head :: t).getLast!.changeIndex + 1,
                 noteType := NoteKind.change,
                 amount := some (remaining - w.amount.getD 0),
                 originTransactionHash := w.originTransactionHash,
                 destinationTransactionHash :=
                   jsOrStr w.destinationTransactionHash w.originTransactionHash,
                 originChainId := w.originChainId,
                 destinationChainId := jsOrInt w.destinationChainId w.originChainId,
                 blockNumber := w.blockNumber,
                 timestamp := w.timestamp,
                 status := if remaining - w.amount.getD 0 > 0 then NoteStatus.unspent
                           else NoteStatus.spent,
                 isActivated := true,
                 label := head.label,
                 refundCommitment := w.refundCommitment }])
              (remaining - w.amount.getD 0) (m + 1)
              ((head :: t).getLast!.changeIndex + 1) head.depositIndex
              (by simp)
              (by rw [getLast!_concat])
              (by rw [getLast!_concat])
              (by cases t <;> rfl)
            rw [if_neg (Nat.succ_ne_zero _)] at hstep
            rw [hstep]
            simp only [Prod.mk.injEq]
            exact ⟨trivial, by omega⟩
    | [], hne2 => exact absurd rfl hne2

theorem extendChainInPlace_eq_spec (P : Primitives) (fuel : ℕ) (chain : List Note)
    (acts : List Activity) (key : ℤ) (pool : ℕ) :
    extendChainInPlace P fuel chain acts key pool =
      extendChainSpec P fuel chain acts key pool := by
  cases chain with
  | nil => cases fuel <;> rfl
  | cons head t =>
    simp only [extendChainInPlace]
    cases hamt : (head :: t).getLast!.amount with
    | none =>
      cases fuel with
      | zero => simp [extendChainSpec]
      | succ f => simp [extendChainSpec, hamt]
    | some amt =>
      cases fuel with
      | zero => simp [extendLoop, extendChainSpec]
      | succ f =>
        have hci : (if (head :: t).getLast!.changeIndex = 0 then 1
            else (head :: t).getLast!.changeIndex + 1) =
            (head :: t).getLast!.changeIndex + 1 := by
          by_cases h : (head :: t).getLast!.changeIndex = 0
          · rw [if_pos h, h]
          · rw [if_neg h]
        have hmain := extendLoop_eq_spec P key pool acts (f + 1) (head :: t) amt 0
          ((head :: t).getLast!.changeIndex) head.depositIndex
          (by simp) hamt rfl rfl
        simp only [hci]
        rw [hmain]
        simp

/-- C4 (amended): chain extension on a page behaves as described with the
additional guard the code imposes: the tail's nullifier hash is poseidon1 of
the deposit nullifier when the tail's changeIndex is 0 and of the change
nullifier at the tail's changeIndex otherwise; when the first withdrawal
activity whose spentNullifier equals that hash also carries a non-null
newCommitment and a non-null, non-zero amount, the tail is marked spent and a
change note is appended with changeIndex = tail.changeIndex + 1, amount =
tail.amount − withdrawal.amount, status unspent iff the remaining amount is
positive, isActivated = true, the label of the chain head, and the
withdrawal's refundCommitment; this repeats within the same page until no
such match is found or the remaining amount is ≤ 0.  Formally:
extendChainInPlace coincides with extendChainSpec, the function written from
that description, for every fuel bound, chain, page and account. -/
theorem c4_extension_matches_description (P : Primitives) (fuel : ℕ) (chain : List Note)
    (acts : List Activity) (key : ℤ) (pool : ℕ) :
    extendChainInPlace P fuel chain acts key pool =
      extendChainSpec P fuel chain acts key pool :=
  extendChainInPlace_eq_spec P fuel chain acts key pool

/-- Withdrawal activity whose spentNullifier matches the deposit nullifier
hash of wNote but whose newCommitment is null. -/
def c4BadWithdrawal : Activity :=
  { type := ActivityType.WITHDRAWAL, amount := some 3, label := none,
    precommitmentHash := none,
    spentNullifier := some (intToDecStr (concretePrimitives.poseidon1
      (deriveDepositNullifier concretePrimitives 1 3 2))),
    newCommitment := none, refundCommitment := none, originTransactionHash := "0xw",
    destinationTransactionHash := none, originChainId := 1, destinationChainId := none,
    blockNumber := 11, timestamp := 101 }

/-- Counterexample for C4 as stated: the page holds a withdrawal activity
whose spentNullifier equals the tail's nullifier hash, yet extendChainInPlace
marks nothing spent and appends nothing (the matching withdrawal has a null
newCommitment), returning the chain unchanged with zero matches. -/
theorem c4_counterexample :
    ([c4BadWithdrawal].find? (fun a => isWithdrawalType a.type &&
        a.spentNullifier == some (intToDecStr (concretePrimitives.poseidon1
          (deriveDepositNullifier concretePrimitives 1 3 2)))) = some c4BadWithdrawal) ∧
    extendChainInPlace concretePrimitives 5 [wNote] [c4BadWithdrawal] 1 3 = ([wNote], 0) := by
  exact ⟨by decide, by decide⟩

/-- C10: chain extension appends a change note only when the first page
activity whose spentNullifier equals the tail's nullifier hash also carries a
non-null (non-empty) newCommitment and a non-null, non-zero amount; if that
matching withdrawal lacks either field, extendChainInPlace stops immediately,
leaves the chain (and so the tail's unspent status) unchanged and reports
zero withdrawals matched, even though the spent nullifier matched. -/
theorem c10_extension_guard (P : Primitives) (fuel : ℕ) (head : Note) (t : List Note)
    (acts : List Activity) (key : ℤ) (pool : ℕ) (amt : ℤ) (w : Activity)
    (hamt : (head :: t).getLast!.amount = some amt)
    (hfind : acts.find? (fun a => isWithdrawalType a.type && a.spentNullifier ==
        some (intToDecStr (P.poseidon1
          (if (head :: t).getLast!.changeIndex = 0 then
            deriveDepositNullifier P key pool head.depositIndex
           else deriveChangeNullifier P key pool head.depositIndex
            (head :: t).getLast!.changeIndex)))) = some w) :
    ((falsyStr w.newCommitment || falsyAmt w.amount) = true →
      extendChainInPlace P fuel (head :: t) acts key pool = (head :: t, 0)) ∧
    ((extendChainInPlace P fuel (head :: t) acts key pool).2 > 0 →
      falsyStr w.newCommitment = false ∧ falsyAmt w.amount = false) := by
  constructor
  · intro hguard
    cases fuel with
    | zero => simp [extendChainInPlace, hamt, extendLoop]
    | succ f =>
      simp only [extendChainInPlace, hamt]
      have hci : (if (head :: t).getLast!.changeIndex = 0 then
          deriveDepositNullifier P key pool head.depositIndex
        else deriveChangeNullifier P key pool head.depositIndex
          (head :: t).getLast!.changeIndex) =
          (if (head :: t).getLast!.changeIndex = 0 then
            deriveDepositNullifier P key pool head.depositIndex
          else deriveChangeNullifier P key pool head.depositIndex
            (head :: t).getLast!.changeIndex) := rfl
      simp only [extendLoop, hfind, hguard, if_true]
  · intro hpos
    cases fuel with
    | zero =>
      simp [extendChainInPlace, hamt, extendLoop] at hpos
    | succ f =>
      simp only [extendChainInPlace, hamt, extendLoop, hfind] at hpos
      by_cases hguard : (falsyStr w.newCommitment || falsyAmt w.amount) = true
      · rw [if_pos hguard] at hpos
        simp at hpos
      · exact Bool.or_eq_false_iff.mp (by revert hguard; cases hg2 : (falsyStr w.newCommitment || falsyAmt w.amount) <;> simp)

/-- Witness for c10_extension_guard: the single-note chain of wNote and the
page holding only c4BadWithdrawal, whose spentNullifier matches the deposit
nullifier hash but whose newCommitment is null. -/
theorem c10_extension_guard_witness :
    (([wNote] : List Note).getLast!.amount = some 5 ∧
     [c4BadWithdrawal].find? (fun a => isWithdrawalType a.type && a.spentNullifier ==
        some (intToDecStr (concretePrimitives.poseidon1
          (if ([wNote] : List Note).getLast!.changeIndex = 0 then
            deriveDepositNullifier concretePrimitives 1 3 wNote.depositIndex
           else deriveChangeNullifier concretePrimitives 1 3 wNote.depositIndex
            ([wNote] : List Note).getLast!.changeIndex)))) = some c4BadWithdrawal ∧
     (falsyStr c4BadWithdrawal.newCommitment || falsyAmt c4BadWithdrawal.amount) = true) ∧
    extendChainInPlace concretePrimitives 5 [wNote] [c4BadWithdrawal] 1 3 = ([wNote], 0) :=
  ⟨⟨by decide, by decide, by decide⟩,
   (c10_extension_guard concretePrimitives 5 wNote [] [c4BadWithdrawal] 1 3 5 c4BadWithdrawal
      (by decide) (by decide)).1 (by decide)⟩

theorem map_getLastBang {α β : Type} [Inhabited α] [Inhabited β] (f : α → β) :
    ∀ (l : List α), l ≠ [] → (l.map f).getLast! = f l.getLast! := by
  intro l
  induction l with
  | nil => intro h; exact absurd rfl h
  | cons a t ih =>
    intro _
    cases t with
    | nil => rfl
    | cons b t2 => exact ih (by simp)

theorem markLastSpent_map_changeIndex : ∀ (l : List Note),
    (markLastSpent l).map (fun n => n.changeIndex) = l.map (fun n => n.changeIndex) := by
  intro l
  induction l with
  | nil => rfl
  | cons a t ih =>
    cases t with
    | nil => rfl
    | cons b t2 =>
      show a.changeIndex :: (markLastSpent (b :: t2)).map (fun n => n.changeIndex) = _
      rw [ih]
      rfl

theorem markLastSpent_length : ∀ (l : List Note), (markLastSpent l).length = l.length := by
  intro l
  induction l with
  | nil => rfl
  | cons a t ih =>
    cases t with
    | nil => rfl
    | cons b t2 =>
      show (markLastSpent (b :: t2)).length + 1 = (b :: t2).length + 1
      rw [ih]

/-- The discovery invariant of the claim: the changeIndex values along a
chain are exactly 0, 1, 2, ... in order. -/
def chainContiguous (c : List Note) : Prop :=
  c.map (fun n => n.changeIndex) = List.range c.length

theorem contiguous_getLast {c : List Note} (hne : c ≠ []) (hc : chainContiguous c) :
    c.getLast!.changeIndex + 1 = c.length := by
  have h1 : (c.map (fun n => n.changeIndex)).getLast! = c.getLast!.changeIndex :=
    map_getLastBang _ c hne
  cases hl : c.length with
  | zero => exact absurd (List.length_eq_zero.mp hl) hne
  | succ k =>
    rw [hc, hl, List.range_succ, getLast!_concat] at h1
    omega

theorem contiguous_head {c : List Note} (hne : c ≠ []) (hc : chainContiguous c) :
    c.head!.changeIndex = 0 := by
  have h1 : (c.map (fun n => n.changeIndex)).head! = c.head!.changeIndex := by
    cases c with
    | nil => exact absurd rfl hne
    | cons a t => rfl
  cases hl : c.length with
  | zero => exact absurd (List.length_eq_zero.mp hl) hne
  | succ k =>
    rw [hc, hl, List.range_succ_eq_map] at h1
    simpa using h1.symm

theorem contiguous_append_note {c : List Note} {n : Note} (hc : chainContiguous c)
    (hn : n.changeIndex = c.length) : chainContiguous (markLastSpent c ++ [n]) := by
  unfold chainContiguous
  rw [List.map_append, markLastSpent_map_changeIndex, List.length_append, markLastSpent_length]
  show c.map (fun n2 => n2.changeIndex) ++ [n.changeIndex] = List.range (c.length + 1)
  rw [hc, hn, ← List.range_succ]

theorem extendChainSpec_preserves (P : Primitives) (acts : List Activity) (key : ℤ)
    (pool : ℕ) :
    ∀ (fuel : ℕ) (chain : List Note), chain ≠ [] → chainContiguous chain →
      (extendChainSpec P fuel chain acts key pool).1 ≠ [] ∧
      chainContiguous (extendChainSpec P fuel chain acts key pool).1 := by
  intro fuel
  induction fuel with
  | zero =>
    intro chain hne hc
    exact ⟨hne, hc⟩
  | succ fuel ih =>
    intro chain hne hc
    match chain, hne with
    | head :: t, _ =>
      simp only [extendChainSpec]
      cases hamt : (head :: t).getLast!.amount with
      | none => exact ⟨by simp, hc⟩
      | some amt =>
        cases hf : acts.find? (fun a => isWithdrawalType a.type &&
            a.spentNullifier == some (intToDecStr (P.poseidon1
              (if (head :: t).getLast!.changeIndex = 0 then
                deriveDepositNullifier P key pool head.depositIndex
               else
                deriveChangeNullifier P key pool head.depositIndex
                  (head :: t).getLast!.changeIndex)))) with
        | none => exact ⟨by simp, hc⟩
        | some w =>
          simp only []
          by_cases hguard : (falsyStr w.newCommitment || falsyAmt w.amount) = true
          · rw [if_pos hguard]
            exact ⟨by simp, hc⟩
          · rw [if_neg hguard]
            have hntail : (head :: t).getLast!.changeIndex + 1 = (head :: t).length :=
              contiguous_getLast (by simp) hc
            have hcc : chainContiguous (markLastSpent (head :: t) ++
                [{ poolAddress := head.poolAddress,
                   depositIndex := head.depositIndex,
                   changeIndex := (head :: t).getLast!.changeIndex + 1,
                   noteType := NoteKind.change,
                   amount := some (amt - w.amount.getD 0),
                   originTransactionHash := w.originTransactionHash,
                   destinationTransactionHash :=
                     jsOrStr w.destinationTransactionHash w.originTransactionHash,
                   originChainId := w.originChainId,
                   destinationChainId := jsOrInt w.destinationChainId w.originChainId,
                   blockNumber := w.blockNumber,
                   timestamp := w.timestamp,
                   status := if amt - w.amount.getD 0 > 0 then NoteStatus.unspent
                             else NoteStatus.spent,
                   isActivated := true,
                   label := head.label,
                   refundCommitment := w.refundCommitment }]) :=
              contiguous_append_note hc hntail
            by_cases hrem : amt - w.amount.getD 0 ≤ 0
            · rw [if_pos hrem]
              exact ⟨by simp, hcc⟩
            · rw [if_neg hrem]
              exact ih _ (by simp) hcc

theorem extendChainInPlace_preserves (P : Primitives) (fuel : ℕ) (acts : List Activity)
    (key : ℤ) (pool : ℕ) {chain : List Note} (hne : chain ≠ [])
    (hc : chainContiguous chain) :
    (extendChainInPlace P fuel chain acts key pool).1 ≠ [] ∧
    chainContiguous (extendChainInPlace P fuel chain acts key pool).1 := by
  rw [extendChainInPlace_eq_spec]
  exact extendChainSpec_preserves P acts key pool fuel chain hne hc

theorem extendLiveStep_notes_all (P : Primitives) (fuel : ℕ) (key : ℤ) (pool : ℕ)
    (acts : List Activity) (inv : List Note → Prop)
    (hpres : ∀ c, inv c → inv (extendChainInPlace P fuel c acts key pool).1)
    (st : List (List Note) × List LiveDeposit) (ld : LiveDeposit)
    (h : ∀ c ∈ st.1, inv c) :
    ∀ c ∈ (extendLiveStep P fuel key pool acts st ld).1, inv c := by
  unfold extendLiveStep
  cases hg : st.1.get? ld.chainIndex with
  | none => exact h
  | some chain =>
    simp only []
    have hchain : inv chain := h chain (List.get?_mem hg)
    have hres := hpres chain hchain
    have hset : ∀ c ∈ st.1.set ld.chainIndex
        (extendChainInPlace P fuel chain acts key pool).1, inv c := by
      intro c hcmem
      rcases List.mem_or_eq_of_mem_set hcmem with h2 | h2
      · exact h c h2
      · rw [h2]
        exact hres
    split_ifs <;> exact hset

theorem foldl_extendLiveStep_notes_all (P : Primitives) (fuel : ℕ) (key : ℤ) (pool : ℕ)
    (acts : List Activity) (inv : List Note → Prop)
    (hpres : ∀ c, inv c → inv (extendChainInPlace P fuel c acts key pool).1) :
    ∀ (snap : List LiveDeposit) (st : List (List Note) × List LiveDeposit),
      (∀ c ∈ st.1, inv c) →
      ∀ c ∈ (snap.foldl (extendLiveStep P fuel key pool acts) st).1, inv c := by
  intro snap
  induction snap with
  | nil => intro st h; exact h
  | cons ld snap2 ih =>
    intro st h
    exact ih _ (extendLiveStep_notes_all P fuel key pool acts inv hpres st ld h)

theorem scanDeposits_notes_all (P : Primitives) (extFuel : ℕ) (key : ℤ) (pool : ℕ)
    (acts : List Activity) (inv : List Note → Prop)
    (hbuild : ∀ a i after, inv (buildChainForDepositInPage P extFuel a i after key pool)) :
    ∀ (fuel : ℕ) (notes : List (List Note)) (live : List LiveDeposit) (lu : ℤ) (ni m : ℕ),
      (∀ c ∈ notes, inv c) →
      ∀ c ∈ (scanDeposits P extFuel key pool acts fuel notes live lu ni m).1, inv c := by
  intro fuel
  induction fuel with
  | zero => intro notes live lu ni m h; exact h
  | succ fuel ih =>
    intro notes live lu ni m h
    simp only [scanDeposits]
    cases hf : acts.findIdx? (fun a => isDepositType a.type &&
        a.precommitmentHash == some (intToDecStr (P.poseidon2
          (deriveDepositNullifier P key pool ni) (deriveDepositSecret P key pool ni)))) with
    | none => exact h
    | some pos =>
      simp only []
      apply ih
      intro c hcm
      rcases List.mem_append.mp hcm with h2 | h2
      · exact h c h2
      · rw [List.mem_singleton.mp h2]
        exact hbuild _ _ _

theorem processPage_notes_all (P : Primitives) (fuel : ℕ) (key : ℤ) (pool : ℕ)
    (inv : List Note → Prop)
    (hpres : ∀ acts c, inv c → inv (extendChainInPlace P fuel c acts key pool).1)
    (hbuild : ∀ (a : Activity) (i : ℕ) (after : List Activity),
      inv (buildChainForDepositInPage P fuel a i after key pool))
    (st : DiscoState) (acts : List Activity)
    (h : ∀ c ∈ st.notes, inv c) :
    ∀ c ∈ (processPage P fuel key pool st acts).notes, inv c := by
  unfold processPage
  simp only []
  apply scanDeposits_notes_all P fuel key pool acts inv (fun a i after => hbuild a i after)
  by_cases hl : st.liveDeposits.length > 0
  · rw [if_pos hl]
    exact foldl_extendLiveStep_notes_all P fuel key pool acts inv (hpres acts) _ _ h
  · rw [if_neg hl]
    exact h

theorem discoverNotes_notes_all (P : Primitives) (fuel : ℕ) (key : ℤ) (pool : ℕ)
    (inv : List Note → Prop)
    (hpres : ∀ acts c, inv c → inv (extendChainInPlace P fuel c acts key pool).1)
    (hbuild : ∀ (a : Activity) (i : ℕ) (after : List Activity),
      inv (buildChainForDepositInPage P fuel a i after key pool)) :
    ∀ (pages : List (List Activity)) (st : DiscoState),
      (∀ c ∈ st.notes, inv c) →
      ∀ c ∈ (discoverNotes P fuel key pool pages st).notes, inv c := by
  intro pages
  induction pages with
  | nil => intro st h; exact h
  | cons page rest ih =>
    intro st h
    exact ih _ (processPage_notes_all P fuel key pool inv hpres hbuild st page h)

theorem buildChain_good (P : Primitives) (fuel : ℕ) (key : ℤ) (pool : ℕ)
    (acts : List Activity) (a : Activity) (i : ℕ) :
    buildChainForDepositInPage P fuel a i acts key pool ≠ [] ∧
    chainContiguous (buildChainForDepositInPage P fuel a i acts key pool) := by
  unfold buildChainForDepositInPage
  apply extendChainInPlace_preserves
  · simp
  · simp [chainContiguous, List.range_succ]

/-- C5: after any sequence of pages processed by discoverNotes, starting from
an empty or well-formed cached state (every cached chain nonempty with
contiguous changeIndex values), every produced note chain has changeIndex
values 0, 1, 2, ... contiguous and strictly increasing, with the chain head
at changeIndex 0; the invariant is preserved by both new-chain construction
and chain extension, and holds for every fuel bound on the inner loops. -/
theorem c5_chain_index_contiguity (P : Primitives) (fuel : ℕ) (key : ℤ) (pool : ℕ)
    (pages : List (List Activity)) (cachedNotes : List (List Note))
    (cachedLastUsed : Option ℤ)
    (hcache : ∀ c ∈ cachedNotes, c ≠ [] ∧ chainContiguous c) :
    ∀ c ∈ (discoverNotes P fuel key pool pages (initState cachedNotes cachedLastUsed)).notes,
      c ≠ [] ∧ chainContiguous c ∧ c.head!.changeIndex = 0 := by
  have hmain := discoverNotes_notes_all P fuel key pool
    (fun c => c ≠ [] ∧ chainContiguous c)
    (fun acts c hc => extendChainInPlace_preserves P fuel acts key pool hc.1 hc.2)
    (fun a i after => buildChain_good P fuel key pool after a i)
    pages (initState cachedNotes cachedLastUsed) hcache
  intro c hcm
  obtain ⟨h1, h2⟩ := hmain c hcm
  exact ⟨h1, h2, contiguous_head h1 h2⟩

/-- Witness for c5_chain_index_contiguity: an empty cache and a single page
holding one withdrawal activity (the hypothesis on the cache is vacuous). -/
theorem c5_chain_index_contiguity_witness :
    (∀ c ∈ ([] : List (List Note)), c ≠ [] ∧ chainContiguous c) ∧
    (∀ c ∈ (discoverNotes concretePrimitives 3 1 3 [[c4BadWithdrawal]]
        (initState [] none)).notes,
      c ≠ [] ∧ chainContiguous c ∧ c.head!.changeIndex = 0) :=
  ⟨by simp,
   c5_chain_index_contiguity concretePrimitives 3 1 3 [[c4BadWithdrawal]] [] none (by simp)⟩

theorem extendLiveStep_length (P : Primitives) (fuel : ℕ) (key : ℤ) (pool : ℕ)
    (acts : List Activity) (st : List (List Note) × List LiveDeposit) (ld : LiveDeposit) :
    (extendLiveStep P fuel key pool acts st ld).1.length = st.1.length := by
  unfold extendLiveStep
  cases st.1.get? ld.chainIndex with
  | none => rfl
  | some chain =>
    simp only []
    split_ifs <;> simp [List.length_set]

theorem foldl_extendLiveStep_length (P : Primitives) (fuel : ℕ) (key : ℤ) (pool : ℕ)
    (acts : List Activity) :
    ∀ (snap : List LiveDeposit) (st : List (List Note) × List LiveDeposit),
      (snap.foldl (extendLiveStep P fuel key pool acts) st).1.length = st.1.length := by
  intro snap
  induction snap with
  | nil => intro st; rfl
  | cons ld snap2 ih =>
    intro st
    rw [List.foldl_cons, ih, extendLiveStep_length]

theorem extendLiveStep_live_pred (P : Primitives) (fuel : ℕ) (key : ℤ) (pool : ℕ)
    (acts : List Activity) (p : ℕ → Prop) (st : List (List Note) × List LiveDeposit)
    (ld : LiveDeposit) (h : ∀ d ∈ st.2, p d.chainIndex) :
    ∀ d ∈ (extendLiveStep P fuel key pool acts st ld).2, p d.chainIndex := by
  unfold extendLiveStep
  cases st.1.get? ld.chainIndex with
  | none => exact h
  | some chain =>
    simp only []
    split_ifs
    · intro d hd
      exact h d (List.mem_filter.mp hd).1
    · intro d hd
      obtain ⟨d0, hd0, hde⟩ := List.mem_map.mp hd
      have := h d0 hd0
      by_cases hcond : (d0.depositIndex == ld.depositIndex && d0.chainIndex == ld.chainIndex) = true
      · rw [if_pos hcond] at hde
        rw [← hde]
        exact this
      · rw [if_neg hcond] at hde
        rw [← hde]
        exact this
    · exact h

theorem foldl_extendLiveStep_live_pred (P : Primitives) (fuel : ℕ) (key : ℤ) (pool : ℕ)
    (acts : List Activity) (p : ℕ → Prop) :
    ∀ (snap : List LiveDeposit) (st : List (List Note) × List LiveDeposit),
      (∀ d ∈ st.2, p d.chainIndex) →
      ∀ d ∈ (snap.foldl (extendLiveStep P fuel key pool acts) st).2, p d.chainIndex := by
  intro snap
  induction snap with
  | nil => intro st h; exact h
  | cons ld snap2 ih =>
    intro st h
    exact ih _ (extendLiveStep_live_pred P fuel key pool acts p st ld h)

theorem extendLiveStep_get_ne (P : Primitives) (fuel : ℕ) (key : ℤ) (pool : ℕ)
    (acts : List Activity) (j : ℕ) (st : List (List Note) × List LiveDeposit)
    (ld : LiveDeposit) (hne : ld.chainIndex ≠ j) :
    (extendLiveStep P fuel key pool acts st ld).1.get? j = st.1.get? j := by
  unfold extendLiveStep
  cases st.1.get? ld.chainIndex with
  | none => rfl
  | some chain =>
    simp only []
    split_ifs <;> exact List.get?_set_ne _ _ hne

theorem foldl_extendLiveStep_get_ne (P : Primitives) (fuel : ℕ) (key : ℤ) (pool : ℕ)
    (acts : List Activity) (j : ℕ) :
    ∀ (snap : List LiveDeposit) (st : List (List Note) × List LiveDeposit),
      (∀ d ∈ snap, d.chainIndex ≠ j) →
      (snap.foldl (extendLiveStep P fuel key pool acts) st).1.get? j = st.1.get? j := by
  intro snap
  induction snap with
  | nil => intro st _; rfl
  | cons ld snap2 ih =>
    intro st h
    rw [List.foldl_cons, ih _ (fun d hd => h d (List.mem_cons_of_mem ld hd)),
      extendLiveStep_get_ne P fuel key pool acts j st ld (h ld (List.mem_cons_self ld snap2))]

theorem scanDeposits_untouched (P : Primitives) (extFuel : ℕ) (key : ℤ) (pool : ℕ)
    (acts : List Activity) (j : ℕ) :
    ∀ (fuel : ℕ) (notes : List (List Note)) (live : List LiveDeposit) (lu : ℤ) (ni m : ℕ),
      j < notes.length →
      (∀ d ∈ live, d.chainIndex ≠ j) →
      ((scanDeposits P extFuel key pool acts fuel notes live lu ni m).1.get? j = notes.get? j ∧
       j < (scanDeposits P extFuel key pool acts fuel notes live lu ni m).1.length ∧
       (∀ d ∈ (scanDeposits P extFuel key pool acts fuel notes live lu ni m).2.1,
         d.chainIndex ≠ j)) := by
  intro fuel
  induction fuel with
  | zero =>
    intro notes live lu ni m hj hl
    exact ⟨rfl, hj, hl⟩
  | succ fuel ih =>
    intro notes live lu ni m hj hl
    simp only [scanDeposits]
    cases hf : acts.findIdx? (fun a => isDepositType a.type &&
        a.precommitmentHash == some (intToDecStr (P.poseidon2
          (deriveDepositNullifier P key pool ni) (deriveDepositSecret P key pool ni)))) with
    | none => exact ⟨rfl, hj, hl⟩
    | some pos =>
      simp only []
      set nc : List Note := buildChainForDepositInPage P extFuel (acts.getD pos default) ni
        (acts.drop (pos + 1)) key pool with hnc
      have hj2 : j < (notes ++ [nc]).length := by
        rw [List.length_append]
        omega
      have hl2 : ∀ d ∈ (if liveEligible nc.getLast! = true then
          live ++ [(⟨ni, (notes ++ [nc]).length - 1, nc.getLast!.amount.getD 0⟩ : LiveDeposit)]
          else live), d.chainIndex ≠ j := by
        split_ifs
        · intro d hd
          rcases List.mem_append.mp hd with h2 | h2
          · exact hl d h2
          · rw [List.mem_singleton.mp h2]
            show (notes ++ [nc]).length - 1 ≠ j
            rw [List.length_append]
            simp only [List.length_cons, List.length_nil]
            omega
        · exact hl
      obtain ⟨g1, g2, g3⟩ := ih (notes ++ [nc]) _ (max lu (ni : ℤ)) (ni + 1) (m + 1) hj2 hl2
      refine ⟨?_, g2, g3⟩
      rw [g1, List.get?_append hj]

theorem processPage_untouched (P : Primitives) (fuel : ℕ) (key : ℤ) (pool : ℕ)
    (st : DiscoState) (acts : List Activity) (j : ℕ)
    (hj : j < st.notes.length)
    (hlive : ∀ d ∈ st.liveDeposits, d.chainIndex ≠ j) :
    ((processPage P fuel key pool st acts).notes.get? j = st.notes.get? j ∧
     j < (processPage P fuel key pool st acts).notes.length ∧
     (∀ d ∈ (processPage P fuel key pool st acts).liveDeposits, d.chainIndex ≠ j)) := by
  unfold processPage
  simp only []
  by_cases hl : st.liveDeposits.length > 0
  · rw [if_pos hl]
    have e1 := foldl_extendLiveStep_get_ne P fuel key pool acts j st.liveDeposits
      (st.notes, st.liveDeposits) hlive
    have e2 := foldl_extendLiveStep_length P fuel key pool acts st.liveDeposits
      (st.notes, st.liveDeposits)
    have e3 := foldl_extendLiveStep_live_pred P fuel key pool acts (fun i => i ≠ j)
      st.liveDeposits (st.notes, st.liveDeposits) hlive
    obtain ⟨g1, g2, g3⟩ := scanDeposits_untouched P fuel key pool acts j fuel
      (extendLivePhase P fuel key pool acts st.notes st.liveDeposits).1
      (extendLivePhase P fuel key pool acts st.notes st.liveDeposits).2
      st.lastUsedIndex st.nextDepositIndex st.depositsMatched
      (by rw [show (extendLivePhase P fuel key pool acts st.notes st.liveDeposits).1.length =
          st.notes.length from e2]; exact hj)
      e3
    exact ⟨by rw [g1]; exact e1, g2, g3⟩
  · rw [if_neg hl]
    obtain ⟨g1, g2, g3⟩ := scanDeposits_untouched P fuel key pool acts j fuel
      st.notes st.liveDeposits st.lastUsedIndex st.nextDepositIndex st.depositsMatched hj hlive
    exact ⟨g1, g2, g3⟩

theorem discoverNotes_untouched (P : Primitives) (fuel : ℕ) (key : ℤ) (pool : ℕ) :
    ∀ (pages : List (List Activity)) (st : DiscoState) (j : ℕ),
      j < st.notes.length →
      (∀ d ∈ st.liveDeposits, d.chainIndex ≠ j) →
      ((discoverNotes P fuel key pool pages st).notes.get? j = st.notes.get? j ∧
       j < (discoverNotes P fuel key pool pages st).notes.length ∧
       (∀ d ∈ (discoverNotes P fuel key pool pages st).liveDeposits, d.chainIndex ≠ j)) := by
  intro pages
  induction pages with
  | nil => intro st j hj hl; exact ⟨rfl, hj, hl⟩
  | cons page rest ih =>
    intro st j hj hl
    obtain ⟨g1, g2, g3⟩ := processPage_untouched P fuel key pool st page j hj hl
    obtain ⟨k1, k2, k3⟩ := ih (processPage P fuel key pool st page) j g2 g3
    refine ⟨?_, k2, k3⟩
    show (discoverNotes P fuel key pool rest
      (processPage P fuel key pool st page)).notes.get? j = st.notes.get? j
    rw [k1, g1]

theorem extendLoop_stop (P : Primitives) (key : ℤ) (pool : ℕ) (acts : List Activity)
    (fuel : ℕ) (chain : List Note) (rem : ℤ) (ci : ℕ) (nul : ℤ) (m : ℕ)
    (hfind : acts.find? (fun a => isWithdrawalType a.type &&
        a.spentNullifier == some (intToDecStr (P.poseidon1 nul))) = none) :
    extendLoop P key pool acts fuel chain rem ci nul m = (chain, m) := by
  cases fuel with
  | zero => rfl
  | succ f => simp only [extendLoop, hfind]

theorem extendChainInPlace_single_stop (P : Primitives) (fuel : ℕ) (key : ℤ) (pool : ℕ)
    (after : List Activity) (dn : Note) (i : ℕ) (amt : ℤ)
    (hdn0 : dn.changeIndex = 0) (hamt2 : dn.amount = some amt) (hdi : dn.depositIndex = i)
    (hnospend : after.find? (fun a2 => isWithdrawalType a2.type &&
        a2.spentNullifier == some (intToDecStr (P.poseidon1
          (deriveDepositNullifier P key pool i)))) = none) :
    extendChainInPlace P fuel [dn] after key pool = ([dn], 0) := by
  have hgl : ([dn] : List Note).getLast! = dn := rfl
  simp only [extendChainInPlace, hgl, hamt2, hdn0, hdi, if_pos]
  exact extendLoop_stop P key pool after fuel [dn] amt 1
    (deriveDepositNullifier P key pool i) 0 hnospend

theorem buildChain_pending (P : Primitives) (fuel : ℕ) (key : ℤ) (pool : ℕ)
    (a : Activity) (i : ℕ) (after : List Activity)
    (hamt : a.amount = none) (hlab : a.label = none)
    (hnospend : after.find? (fun a2 => isWithdrawalType a2.type &&
        a2.spentNullifier == some (intToDecStr (P.poseidon1
          (deriveDepositNullifier P key pool i)))) = none) :
    buildChainForDepositInPage P fuel a i after key pool =
      [{ poolAddress := pool, depositIndex := i, changeIndex := 0,
         noteType := NoteKind.deposit, amount := some 0,
         originTransactionHash := a.originTransactionHash,
         destinationTransactionHash :=
           jsOrStr a.destinationTransactionHash a.originTransactionHash,
         originChainId := a.originChainId,
         destinationChainId := jsOrInt a.destinationChainId a.originChainId,
         blockNumber := a.blockNumber, timestamp := a.timestamp,
         status := NoteStatus.unspent, isActivated := false,
         label := "Pending Deposit #" ++ natToDecStr i, refundCommitment := none }] := by
  unfold buildChainForDepositInPage
  simp only [hamt, hlab, falsyAmt, jsOrStr, Option.isSome_none, Option.getD_none, if_pos]
  rw [extendChainInPlace_single_stop P fuel key pool after _ i 0 rfl rfl rfl hnospend]

def pendingNote (pool : ℕ) (i : ℕ) (a : Activity) : Note :=
  { poolAddress := pool, depositIndex := i, changeIndex := 0,
    noteType := NoteKind.deposit, amount := some 0,
    originTransactionHash := a.originTransactionHash,
    destinationTransactionHash := jsOrStr a.destinationTransactionHash a.originTransactionHash,
    originChainId := a.originChainId,
    destinationChainId := jsOrInt a.destinationChainId a.originChainId,
    blockNumber := a.blockNumber, timestamp := a.timestamp,
    status := NoteStatus.unspent, isActivated := false,
    label := "Pending Deposit #" ++ natToDecStr i,
    refundCommitment := none }

/-- C6: when a page contains a Deposit or CrossChainDeposit activity whose
precommitmentHash matches the candidate deposit index but whose amount and
label are both null (and, as the page of the spec's scenario, no later
activity on the page spends the pending deposit's nullifier), discovery
produces a single-note chain whose only note has isActivated = false,
amount = "0", label = "Pending Deposit #i", status unspent; that chain fails
the liveDeposits admission test and is not added to liveDeposits, so on the
processed page and on all later pages it stays untouched — it is not a
candidate for extension. -/
theorem c6_pending_deposit (P : Primitives) (fuel : ℕ) (key : ℤ) (pool : ℕ)
    (st : DiscoState) (acts : List Activity) (pos : ℕ) (pages : List (List Activity))
    (hfind : acts.findIdx? (fun a => isDepositType a.type &&
        a.precommitmentHash == some (intToDecStr (P.poseidon2
          (deriveDepositNullifier P key pool st.nextDepositIndex)
          (deriveDepositSecret P key pool st.nextDepositIndex)))) = some pos)
    (hamt : (acts.getD pos default).amount = none)
    (hlab : (acts.getD pos default).label = none)
    (hnospend : (acts.drop (pos + 1)).find? (fun a2 => isWithdrawalType a2.type &&
        a2.spentNullifier == some (intToDecStr (P.poseidon1
          (deriveDepositNullifier P key pool st.nextDepositIndex)))) = none)
    (hlive : ∀ d ∈ st.liveDeposits, d.chainIndex < st.notes.length) :
    ∃ n : Note,
      buildChainForDepositInPage P (fuel + 1) (acts.getD pos default) st.nextDepositIndex
        (acts.drop (pos + 1)) key pool = [n] ∧
      n.isActivated = false ∧
      n.amount = some 0 ∧
      n.label = "Pending Deposit #" ++ natToDecStr st.nextDepositIndex ∧
      n.status = NoteStatus.unspent ∧
      liveEligible n = false ∧
      (processPage P (fuel + 1) key pool st acts).notes.get? st.notes.length = some [n] ∧
      (∀ d ∈ (processPage P (fuel + 1) key pool st acts).liveDeposits,
        d.chainIndex ≠ st.notes.length) ∧
      (discoverNotes P (fuel + 1) key pool pages
          (processPage P (fuel + 1) key pool st acts)).notes.get? st.notes.length =
        some [n] ∧
      (∀ d ∈ (discoverNotes P (fuel + 1) key pool pages
          (processPage P (fuel + 1) key pool st acts)).liveDeposits,
        d.chainIndex ≠ st.notes.length) := by
  have hb : buildChainForDepositInPage P (fuel + 1) (acts.getD pos default)
      st.nextDepositIndex (acts.drop (pos + 1)) key pool =
      [pendingNote pool st.nextDepositIndex (acts.getD pos default)] :=
    buildChain_pending P (fuel + 1) key pool (acts.getD pos default)
      st.nextDepositIndex (acts.drop (pos + 1)) hamt hlab hnospend
  refine ⟨_, hb, rfl, rfl, rfl, rfl, rfl, ?_⟩
  have hmain : (processPage P (fuel + 1) key pool st acts).notes.get? st.notes.length =
      some [pendingNote pool st.nextDepositIndex (acts.getD pos default)] ∧
      st.notes.length < (processPage P (fuel + 1) key pool st acts).notes.length ∧
      (∀ d ∈ (processPage P (fuel + 1) key pool st acts).liveDeposits,
        d.chainIndex ≠ st.notes.length) := by
    unfold processPage
    simp only []
    have hextlen : (if st.liveDeposits.length > 0 then
        extendLivePhase P (fuel + 1) key pool acts st.notes st.liveDeposits
      else (st.notes, st.liveDeposits)).1.length = st.notes.length := by
      split_ifs
      · exact foldl_extendLiveStep_length P (fuel + 1) key pool acts st.liveDeposits
          (st.notes, st.liveDeposits)
      · rfl
    have hextlive : ∀ d ∈ (if st.liveDeposits.length > 0 then
        extendLivePhase P (fuel + 1) key pool acts st.notes st.liveDeposits
      else (st.notes, st.liveDeposits)).2, d.chainIndex ≠ st.notes.length := by
      split_ifs
      · intro d hd
        have h2 := foldl_extendLiveStep_live_pred P (fuel + 1) key pool acts
          (fun idx => idx < st.notes.length) st.liveDeposits (st.notes, st.liveDeposits)
          hlive d hd
        omega
      · intro d hd
        have h2 := hlive d hd
        omega
    simp only [scanDeposits, hfind, hb]
    have hlivefalse : liveEligible (([pendingNote pool st.nextDepositIndex
        (acts.getD pos default)] : List Note).getLast!) = false := rfl
    rw [hlivefalse]
    simp only [Bool.false_eq_true, if_false]
    obtain ⟨g1, g2, g3⟩ := scanDeposits_untouched P (fuel + 1) key pool acts
      st.notes.length fuel
      ((if st.liveDeposits.length > 0 then
          extendLivePhase P (fuel + 1) key pool acts st.notes st.liveDeposits
        else (st.notes, st.liveDeposits)).1 ++
        [[pendingNote pool st.nextDepositIndex (acts.getD pos default)]])
      (if st.liveDeposits.length > 0 then
          extendLivePhase P (fuel + 1) key pool acts st.notes st.liveDeposits
        else (st.notes, st.liveDeposits)).2
      (max st.lastUsedIndex (st.nextDepositIndex : ℤ)) (st.nextDepositIndex + 1)
      (st.depositsMatched + 1)
      (by rw [List.length_append, hextlen]; simp)
      hextlive
    refine ⟨?_, g2, g3⟩
    rw [g1]
    have : st.notes.length = (if st.liveDeposits.length > 0 then
        extendLivePhase P (fuel + 1) key pool acts st.notes st.liveDeposits
      else (st.notes, st.liveDeposits)).1.length := hextlen.symm
    rw [this]
    exact List.get?_concat_length _ _
  obtain ⟨m1, m2, m3⟩ := hmain
  obtain ⟨k1, k2, k3⟩ := discoverNotes_untouched P (fuel + 1) key pool pages
    (processPage P (fuel + 1) key pool st acts) st.notes.length m2 m3
  exact ⟨m1, m3, by rw [k1, m1], k3⟩

/-- A CROSSCHAIN_DEPOSIT activity for deposit index 0 of key 1 / pool 3 whose
precommitmentHash matches but whose amount and label are both null. -/
def c6PendingAct : Activity :=
  { type := ActivityType.CROSSCHAIN_DEPOSIT, amount := none, label := none,
    precommitmentHash := some (intToDecStr (concretePrimitives.poseidon2
      (deriveDepositNullifier concretePrimitives 1 3 0)
      (deriveDepositSecret concretePrimitives 1 3 0))),
    spentNullifier := none, newCommitment := none, refundCommitment := none,
    originTransactionHash := "0xd", destinationTransactionHash := none,
    originChainId := 1, destinationChainId := none, blockNumber := 10, timestamp := 100 }

/-- A withdrawal later in the same page that spends the pending deposit's
nullifier and carries a non-null newCommitment and amount. -/
def c6SpendAct : Activity :=
  { type := ActivityType.WITHDRAWAL, amount := some 1, label := none,
    precommitmentHash := none,
    spentNullifier := some (intToDecStr (concretePrimitives.poseidon1
      (deriveDepositNullifier concretePrimitives 1 3 0))),
    newCommitment := some "0xc", refundCommitment := none,
    originTransactionHash := "0xw", destinationTransactionHash := none,
    originChainId := 1, destinationChainId := none, blockNumber := 11, timestamp := 101 }

/-- Counterexample for C6 as stated: the page contains a matching deposit
activity with null amount and label, yet discovery does not produce a
single-note chain — a later withdrawal on the same page spends the pending
note's deposit nullifier (the pending note's amount is the string "0", which
is truthy, so the null-amount skip does not fire) and the built chain has two
notes. -/
theorem c6_counterexample :
    isDepositType c6PendingAct.type = true ∧
    c6PendingAct.precommitmentHash = some (intToDecStr (concretePrimitives.poseidon2
      (deriveDepositNullifier concretePrimitives 1 3 0)
      (deriveDepositSecret concretePrimitives 1 3 0))) ∧
    c6PendingAct.amount = none ∧ c6PendingAct.label = none ∧
    (buildChainForDepositInPage concretePrimitives 5 c6PendingAct 0 [c6SpendAct] 1 3).length
      = 2 :=
  ⟨rfl, rfl, rfl, rfl, by decide⟩

def c6St : DiscoState :=
  { notes := [], lastUsedIndex := 0, nextDepositIndex := 0, liveDeposits := [],
    depositsMatched := 0 }

theorem c6_pending_deposit_witness :
    ∃ n : Note,
      buildChainForDepositInPage concretePrimitives (4 + 1)
        (([c6PendingAct] : List Activity).getD 0 default) c6St.nextDepositIndex
        (([c6PendingAct] : List Activity).drop (0 + 1)) 1 3 = [n] ∧
      n.isActivated = false ∧
      n.amount = some 0 ∧
      n.label = "Pending Deposit #" ++ natToDecStr c6St.nextDepositIndex ∧
      n.status = NoteStatus.unspent ∧
      liveEligible n = false ∧
      (processPage concretePrimitives (4 + 1) 1 3 c6St [c6PendingAct]).notes.get?
        c6St.notes.length = some [n] ∧
      (∀ d ∈ (processPage concretePrimitives (4 + 1) 1 3 c6St [c6PendingAct]).liveDeposits,
        d.chainIndex ≠ c6St.notes.length) ∧
      (discoverNotes concretePrimitives (4 + 1) 1 3 []
          (processPage concretePrimitives (4 + 1) 1 3 c6St [c6PendingAct])).notes.get?
        c6St.notes.length = some [n] ∧
      (∀ d ∈ (discoverNotes concretePrimitives (4 + 1) 1 3 []
          (processPage concretePrimitives (4 + 1) 1 3 c6St [c6PendingAct])).liveDeposits,
        d.chainIndex ≠ c6St.notes.length) :=
  c6_pending_deposit concretePrimitives 4 1 3 c6St [c6PendingAct] 0 []
    (by decide) rfl rfl rfl
    (fun d hd => absurd hd (List.not_mem_nil d))

end Shinobi
